import Mathlib

/-!
Verification of the multi-agent orchestration runtime
(`src/agent/factory/base.py` and `src/agent/factory/patterns/`): a shallow
embedding of the data model (`AgentResult`, `AgentContext`, `AgentRegistry`)
and of the composition patterns (handoff, parallel fan-out/fan-in, sequential
pipeline, supervisor loop, keyword router), together with theorems settling
the specification claims about them.

Conventions of the embedding:
- Python dicts become ordered association lists; assignment `d[k] = v`
  replaces in place (keeping the key position) or appends a fresh key, as
  Python dicts do.
- A worker's `async execute` is modelled as a total function
  `AgentContext → AgentResult` (one deterministic completed invocation);
  loops over `await` points become fuel-indexed recursion where the fuel is
  exactly the loop bound of the source.
- Heterogeneous `dict[str, Any]` payloads become the inductive `Val`.
- Reference-aliasing behaviour (Python object identity under `dict.copy()`)
  is modelled once, for the parallel fan-out claim, by an explicit heap of
  dictionary cells.
-/

/-- A Python value stored in a `data`/`metadata`/`shared_state` mapping. -/
inductive Val : Type where
  | str : String → Val
  | natV : Nat → Val
  | boolV : Bool → Val
  | noneV : Val
  | listV : List Val → Val
  | dict : List (String × Val) → Val

/-- Python dict lookup `d.get(k)`: the value at the first matching key. -/
def dictGet {κ α : Type} [DecidableEq κ] : List (κ × α) → κ → Option α
  | [], _ => none
  | (k', v) :: rest, k => if k' = k then some v else dictGet rest k

/-- Python dict assignment `d[k] = v`: replace at the existing key position,
or append a fresh key at the end (insertion order is preserved). -/
def dictSet {κ α : Type} [DecidableEq κ] : List (κ × α) → κ → α → List (κ × α)
  | [], k, v => [(k, v)]
  | (k', v') :: rest, k, v =>
      if k' = k then (k', v) :: rest else (k', v') :: dictSet rest k v

/-- Python truthiness of an optional string (`if x:`): `None` and the empty
string are falsy. -/
def truthyOptStr : Option String → Bool
  | none => false
  | some s => s ≠ ""

/-- Whether `pat` is a prefix of `s` (over character lists). -/
def charPrefix : List Char → List Char → Bool
  | [], _ => true
  | _ :: _, [] => false
  | a :: pat, b :: s => a == b && charPrefix pat s

/-- Whether `pat` occurs in `s` at some position (over character lists). -/
def charOccurs (pat : List Char) : List Char → Bool
  | [] => charPrefix pat []
  | b :: s => charPrefix pat (b :: s) || charOccurs pat s

/-- Python substring test `pat in s`: `pat` occurs contiguously in `s` (the
empty pattern occurs in every string). -/
def pyIn (pat s : String) : Bool :=
  charOccurs pat.data s.data

/-- Python `str.lower()` (the texts routed here are ASCII, where
`Char.toLower` agrees with Python). -/
def pyLower (s : String) : String :=
  ⟨s.data.map Char.toLower⟩

/-- Python slicing `s[:200]` for the log previews (`s.output[:200] if
s.output else ""` equals the 200-character prefix in both branches). -/
def pyPreview (s : String) : String :=
  ⟨s.data.take 200⟩

/-- `AgentRole` from `src/agent/factory/base.py`. -/
inductive AgentRole : Type where
  | researcher
  | coder
  | reviewer
  | planner
  | tester
  | deployer
  | orchestrator
deriving DecidableEq, Repr

/-- `AgentResult` from `src/agent/factory/base.py`.  `data` and `metadata`
are ordered string-keyed dicts of `Val`. -/
structure AgentResult : Type where
  success : Bool
  output : String
  data : List (String × Val) := []
  errors : List String := []
  next_agent : Option String := none
  metadata : List (String × Val) := []

/-- `AgentContext` from `src/agent/factory/base.py`. -/
structure AgentContext : Type where
  task : String
  project_id : Option String := none
  previous_results : List AgentResult := []
  shared_state : List (String × Val) := []
  max_iterations : Nat := 10
  current_iteration : Nat := 0

/-- A worker's `execute` method: one deterministic completed invocation. -/
def Behavior : Type := AgentContext → AgentResult

/-- `BaseAgent` as the registry sees it: `name`, `role`, and a `uid`
standing for Python object identity (two distinct agent objects with equal
name and role are distinct objects). -/
structure BaseAgent : Type where
  name : String
  role : AgentRole
  uid : Nat
deriving DecidableEq, Repr

/-- `AgentRegistry` state from `src/agent/factory/base.py`:
`_agents : dict[str, BaseAgent]` and `_by_role : dict[AgentRole, list]`. -/
structure AgentRegistry : Type where
  agents : List (String × BaseAgent)
  byRole : List (AgentRole × List BaseAgent)
deriving DecidableEq, Repr

/-- A freshly constructed `AgentRegistry()`. -/
def AgentRegistry.empty : AgentRegistry := ⟨[], []⟩

/-- `AgentRegistry.register`: `self._agents[agent.name] = agent`, then append
the agent to `self._by_role[agent.role]`, creating the role bucket first when
absent. -/
def AgentRegistry.register (reg : AgentRegistry) (agent : BaseAgent) : AgentRegistry :=
  let agents := dictSet reg.agents agent.name agent
  let bucket := match dictGet reg.byRole agent.role with
    | none => []
    | some l => l
  ⟨agents, dictSet reg.byRole agent.role (bucket ++ [agent])⟩

/-- `AgentRegistry.get`: name lookup. -/
def AgentRegistry.get (reg : AgentRegistry) (name : String) : Option BaseAgent :=
  dictGet reg.agents name

/-- `AgentRegistry.get_by_role`: `self._by_role.get(role, [])`. -/
def AgentRegistry.getByRole (reg : AgentRegistry) (role : AgentRole) : List BaseAgent :=
  (dictGet reg.byRole role).getD []

/-- `AgentRegistry.list_all`: `list(self._agents.values())`. -/
def AgentRegistry.listAll (reg : AgentRegistry) : List BaseAgent :=
  reg.agents.map (·.2)

/-! ### AgentHandoff (`src/agent/factory/patterns/handoff.py`) -/

/-- A named worker as the patterns hold one: its `name` and its `execute`. -/
structure Worker : Type where
  name : String
  behave : Behavior

/-- A single apostrophe character, used by source error messages. -/
def pyQuote : String := (Char.ofNat 39).toString

/-- The message appended by `execute_with_handoff` when `result.next_agent`
names an agent the registry does not know, quoting the missing name between
apostrophes as the f-string in the source does. -/
def handoffFailedMsg (nm : String) : String :=
  "Handoff failed: agent " ++ pyQuote ++ nm ++ pyQuote ++ " not found"

/-- `result.errors.append(e)` on a result object. -/
def AgentResult.appendError (r : AgentResult) (e : String) : AgentResult :=
  { r with errors := r.errors ++ [e] }

/-- One `_handoff_history` entry:
`{"agent": ..., "success": ..., "handoff_to": result.next_agent}`. -/
def handoffHistEntry (agentName : String) (r : AgentResult) : Val :=
  Val.dict [("agent", Val.str agentName), ("success", Val.boolV r.success),
    ("handoff_to", match r.next_agent with
      | none => Val.noneV
      | some s => Val.str s)]

/-- What a finished `execute_with_handoff` call exposes: the returned result,
the `_handoff_history` entries appended (one per worker execution), and
whether the loop exited by exhausting `max_handoffs`. -/
structure HandoffOutcome : Type where
  result : AgentResult
  history : List Val
  exhausted : Bool

/-- The `while handoff_count < max_handoffs` loop of
`AgentHandoff.execute_with_handoff`; `fuel = max_handoffs - handoff_count`.
Each pass executes the current worker, records one history entry, returns the
result when it has no `next_agent` (or, with an appended error, when the
named next agent is unregistered), and otherwise appends the result to
`context.previous_results`, bumps `current_iteration`, and hands off. -/
def AgentHandoff.loop (registry : List (String × Worker)) (maxHandoffs : Nat) :
    Nat → Worker → AgentContext → List Val → HandoffOutcome
  | 0, _, _, hist =>
      ⟨{ success := false, output := "Maximum handoffs reached",
         errors := [s!"Exceeded max handoffs ({maxHandoffs})"] }, hist, true⟩
  | fuel + 1, current, ctx, hist =>
      let result := current.behave ctx
      let hist' := hist ++ [handoffHistEntry current.name result]
      match result.next_agent with
      | none => ⟨result, hist', false⟩
      | some nm =>
          match dictGet registry nm with
          | none => ⟨result.appendError (handoffFailedMsg nm), hist', false⟩
          | some nextAgent =>
              AgentHandoff.loop registry maxHandoffs fuel nextAgent
                { ctx with
                  previous_results := ctx.previous_results ++ [result],
                  current_iteration := ctx.current_iteration + 1 }
                hist'

/-- `AgentHandoff.execute_with_handoff(initial_agent, context, max_handoffs)`
against a registry of workers. -/
def AgentHandoff.executeWithHandoff (registry : List (String × Worker))
    (initialAgent : Worker) (ctx : AgentContext) (maxHandoffs : Nat) : HandoffOutcome :=
  AgentHandoff.loop registry maxHandoffs maxHandoffs initialAgent ctx []

/-! ### ParallelAgents (`src/agent/factory/patterns/parallel.py`) -/

/-- `result.metadata["agent_name"] = name`, as `_execute_agent` and
`execute` label each branch result. -/
def labelAgentName (name : String) (r : AgentResult) : AgentResult :=
  { r with metadata := dictSet r.metadata "agent_name" (Val.str name) }

/-- The isolated per-branch context `ParallelAgents.execute` builds: same
`task`/`project_id`/`max_iterations`/`current_iteration`, and copies of
`previous_results` and `shared_state` (in this pure value model a copy is
the value itself; the aliasing consequences of the copies being shallow are
modelled separately on the heap below). -/
def parallelChildContext (ctx : AgentContext) : AgentContext :=
  { task := ctx.task, project_id := ctx.project_id,
    previous_results := ctx.previous_results,
    shared_state := ctx.shared_state,
    max_iterations := ctx.max_iterations,
    current_iteration := ctx.current_iteration }

/-- `r.metadata.get("agent_name", "unknown")` as the default aggregator uses
it (always a string in every reachable state of this model, since the
patterns label with strings). -/
def metaAgentName (r : AgentResult) : String :=
  match dictGet r.metadata "agent_name" with
  | some (Val.str s) => s
  | _ => "unknown"

/-- One pass of the `for r in results` loop of
`ParallelAgents._default_aggregator`: extend outputs, `all_data`,
`all_errors` and the running `all_success` flag. -/
def aggStep (acc : List String × List (String × Val) × List String × Bool)
    (r : AgentResult) : List String × List (String × Val) × List String × Bool :=
  (acc.1 ++ ["## " ++ metaAgentName r ++ "\n" ++ r.output],
   dictSet acc.2.1 (metaAgentName r) (Val.dict r.data),
   acc.2.2.1 ++ r.errors,
   acc.2.2.2 && r.success)

/-- `ParallelAgents._default_aggregator`. -/
def ParallelAgents.defaultAggregator (results : List AgentResult) : AgentResult :=
  let acc := results.foldl aggStep ([], [], [], true)
  { success := acc.2.2.2,
    output := String.intercalate "\n\n" acc.1,
    data := acc.2.1,
    errors := acc.2.2.1,
    metadata := [("agent_count", Val.natV results.length),
                 ("success_count", Val.natV (results.filter (·.success)).length),
                 ("failure_count", Val.natV (results.filter (fun r => !r.success)).length)] }

/-- The `agent_results` list `ParallelAgents.execute` hands the aggregator
in the completed non-fail-fast run: one labelled result per registered
worker, in registration (task-creation) order, each computed on its own
isolated context copy. -/
def parallelBranchResults (agents : List (String × Behavior)) (ctx : AgentContext) :
    List AgentResult :=
  agents.map fun p => labelAgentName p.1 (p.2 (parallelChildContext ctx))

/-- `ParallelAgents.execute` in the deterministic completed-run model:
`fail_fast = False`, every branch completes within the timeout, and a
branch's `execute` is a total function, so no branch raises.  Each
registered worker runs on an isolated copy of the caller's context, its
result is labelled with `metadata["agent_name"]`, and `asyncio.gather`
reports the labelled results back in registration (task-creation) order to
the aggregator. -/
def ParallelAgents.execute (agents : List (String × Behavior))
    (aggregator : List AgentResult → AgentResult) (ctx : AgentContext) : AgentResult :=
  if agents.isEmpty then
    { success := false, output := "No agents to execute",
      errors := ["ParallelAgents has no agents configured"] }
  else
    aggregator (parallelBranchResults agents ctx)

/-- The deterministic placeholder `_execute_fail_fast` fills a cancelled or
unscheduled slot with. -/
def cancelledResult (name : String) : AgentResult :=
  { success := false, output := "Cancelled due to fail-fast",
    errors := ["Cancelled"], metadata := [("agent_name", Val.str name)] }

/-- The `for i, r in enumerate(results): if r is None: ...` fill of
`_execute_fail_fast`: each still-unfilled slot receives the cancelled
placeholder for its own registration-order agent name. -/
def fillCancelled (names : List String) (slots : List (Option AgentResult)) :
    List AgentResult :=
  (names.zip slots).map fun p => p.2.getD (cancelledResult p.1)

/-- `ParallelAgents._execute_fail_fast`, modelled over an explicit completion
schedule: `order` lists branch indices in the order the coordinator observes
and processes their completions (the `asyncio.wait(FIRST_COMPLETED)` batches
flattened into the order of the `for task in done` processing).  `res i` is
branch `i`'s genuine labelled result.  Each processed completion fills its
registration-order slot; at the first processed failure all still-unfilled
slots are filled with the cancelled placeholder and the list is returned. -/
def ParallelAgents.failFastLoop (names : List String) (res : Nat → AgentResult) :
    List Nat → List (Option AgentResult) → List AgentResult
  | [], slots => fillCancelled names slots
  | i :: rest, slots =>
      let slots' := slots.set i (some (res i))
      if (res i).success then ParallelAgents.failFastLoop names res rest slots'
      else fillCancelled names slots'

/-- `_execute_fail_fast` from the initial all-`None` slot list. -/
def ParallelAgents.executeFailFast (names : List String) (res : Nat → AgentResult)
    (order : List Nat) : List AgentResult :=
  ParallelAgents.failFastLoop names res order (List.replicate names.length none)

/-! ### SequentialAgents (`src/agent/factory/patterns/sequential.py`) -/

/-- `result.metadata["stage_name"] = stage_name;
result.metadata["stage_index"] = stage_idx`. -/
def stageTag (stageName : String) (stageIdx : Nat) (r : AgentResult) : AgentResult :=
  let md := dictSet r.metadata "stage_name" (Val.str stageName)
  { r with metadata := dictSet md "stage_index" (Val.natV stageIdx) }

/-- One `_execution_log` entry of the pipeline (`output_preview` is
`result.output[:200]`, the empty string when the output is empty). -/
def seqLogEntry (stageName : String) (stageIdx : Nat) (r : AgentResult) : Val :=
  Val.dict [("stage", Val.str stageName), ("index", Val.natV stageIdx),
    ("success", Val.boolV r.success),
    ("output_preview", Val.str (pyPreview r.output))]

/-- A Python `AgentResult` object stored inside a `data` mapping (the
pipeline failure result stores the collected results under
`"stage_results"`), encoded as a dict-shaped `Val`. -/
def AgentResult.toVal (r : AgentResult) : Val :=
  Val.dict [("success", Val.boolV r.success), ("output", Val.str r.output),
    ("data", Val.dict r.data),
    ("errors", Val.listV (r.errors.map Val.str)),
    ("next_agent", match r.next_agent with
      | none => Val.noneV
      | some s => Val.str s),
    ("metadata", Val.dict r.metadata)]

/-- `r.metadata.get("stage_name", "unknown")` as `_compile_final_result`
reads it (a string in every reachable state of this model). -/
def metaStageName (r : AgentResult) : String :=
  match dictGet r.metadata "stage_name" with
  | some (Val.str s) => s
  | _ => "unknown"

/-- `SequentialAgents._default_transform`: merge `result.data` into a copy
of `shared_state`, take `result.data.get("next_task", context.task)` as the
new task (a string whenever present in this model), copy
`previous_results`, and bump `current_iteration`. -/
def SequentialAgents.defaultTransform (ctx : AgentContext) (result : AgentResult) :
    AgentContext :=
  { task := match dictGet result.data "next_task" with
      | some (Val.str s) => s
      | _ => ctx.task,
    project_id := ctx.project_id,
    previous_results := ctx.previous_results,
    shared_state := result.data.foldl (fun d p => dictSet d p.1 p.2) ctx.shared_state,
    max_iterations := ctx.max_iterations,
    current_iteration := ctx.current_iteration + 1 }

/-- `SequentialAgents._compile_final_result` (called only with a non-empty
result list; the `getLastD` default is unreachable there). -/
def SequentialAgents.compileFinalResult (total : Nat) (results : List AgentResult)
    (log : List Val) : AgentResult :=
  let last := results.getLastD { success := false, output := "" }
  { success := results.all (·.success),
    output := last.output,
    data := [("final_output", Val.dict last.data),
             ("all_stages", Val.dict (results.foldl
               (fun d r => dictSet d (metaStageName r) (Val.dict r.data)) []))],
    errors := results.foldl (fun e r => e ++ r.errors) [],
    metadata := [("stages_completed", Val.natV results.length),
                 ("total_stages", Val.natV total),
                 ("execution_log", Val.listV log),
                 ("stage_outputs", Val.listV (results.map fun r =>
                   Val.str ("### Stage: " ++ metaStageName r ++ "\n" ++ r.output)))] }

/-- The stage loop of `SequentialAgents.execute` over the remaining stage
suffix: tag the stage result, log it, collect it; on failure with
`stop_on_failure` return the synthetic pipeline-failure result; otherwise
transform the context (only when further stages remain) and continue.
Behaviours are total functions, so the exception branch of the source does
not arise.  Returns the final result together with the execution log. -/
def SequentialAgents.loop (transform : AgentContext → AgentResult → AgentContext)
    (stopOnFailure : Bool) (total : Nat) :
    List (String × Behavior) → Nat → AgentContext → List Val → List AgentResult →
      AgentResult × List Val
  | [], _, _, log, results => (SequentialAgents.compileFinalResult total results log, log)
  | (stageName, b) :: rest, stageIdx, ctx, log, results =>
      let result := stageTag stageName stageIdx (b ctx)
      let log' := log ++ [seqLogEntry stageName stageIdx result]
      let results' := results ++ [result]
      if !result.success && stopOnFailure then
        ({ success := false,
           output := "Pipeline failed at stage: " ++ stageName,
           data := [("failed_stage", Val.str stageName),
                    ("stage_results", Val.listV (results'.map AgentResult.toVal))],
           errors := result.errors ++
             [s!"Pipeline stopped at stage {stageIdx + 1}/{total}"],
           metadata := [("execution_log", Val.listV log')] }, log')
      else
        SequentialAgents.loop transform stopOnFailure total rest (stageIdx + 1)
          (if rest.isEmpty then ctx
           else
             let c := transform ctx result
             { c with previous_results := c.previous_results ++ [result] })
          log' results'

/-- `SequentialAgents.execute`, returning the result and `_execution_log`. -/
def SequentialAgents.execute (stages : List (String × Behavior))
    (stopOnFailure : Bool) (transform : AgentContext → AgentResult → AgentContext)
    (ctx : AgentContext) : AgentResult × List Val :=
  if stages.isEmpty then
    ({ success := false, output := "Empty pipeline",
       errors := ["SequentialAgents has no stages configured"] }, [])
  else
    SequentialAgents.loop transform stopOnFailure stages.length stages 0 ctx [] []

/-- The stage results the pipeline produces while it keeps running: the same
per-stage computation as `SequentialAgents.loop`, without the
stop-on-failure exit.  Its prefix up to and including the first failing
stage coincides with what the stopping loop computes, so it states which
stage is the first to fail. -/
def SequentialAgents.trace (transform : AgentContext → AgentResult → AgentContext) :
    List (String × Behavior) → Nat → AgentContext → List AgentResult
  | [], _, _ => []
  | (stageName, b) :: rest, stageIdx, ctx =>
      let result := stageTag stageName stageIdx (b ctx)
      result :: SequentialAgents.trace transform rest (stageIdx + 1)
        (if rest.isEmpty then ctx
         else
           let c := transform ctx result
           { c with previous_results := c.previous_results ++ [result] })

/-! ### SupervisorPattern (`src/agent/factory/patterns/supervisor.py`) -/

/-- Python truthiness of a `Val` (`if r.metadata.get("agent_name"):`). -/
def truthyVal : Val → Bool
  | Val.str s => s ≠ ""
  | Val.natV n => n ≠ 0
  | Val.boolV b => b
  | Val.noneV => false
  | Val.listV l => !l.isEmpty
  | Val.dict d => !d.isEmpty

/-- `agents_used`: the truthy `metadata.get("agent_name")` values of the
previous results, in order. -/
def agentsUsed (previous_results : List AgentResult) : List Val :=
  previous_results.filterMap fun r =>
    match dictGet r.metadata "agent_name" with
    | some v => if truthyVal v then some v else none
    | none => none

/-- Python `==` between a member of `agents_used` and the string
`agent_name`: a str equals only an equal str. -/
def valEqStr (v : Val) (s : String) : Bool :=
  match v with
  | Val.str t => t = s
  | _ => false

/-- The fixed canonical workflow order of `_default_decision`. -/
def supervisorWorkflow : List String :=
  ["researcher", "planner", "coder", "reviewer", "tester"]

/-- `SupervisorPattern._default_decision`.  `workers` is the ordered key
list of `self._workers`; `task_lower` is computed but never used in the
source, so it is omitted.  The `getLastD` default is unreachable: the last
result is read only when `previous_results` is non-empty. -/
def SupervisorPattern.defaultDecision (workers : List String)
    (previous_results : List AgentResult) : Option String :=
  if previous_results.isEmpty then
    if workers.contains "researcher" then some "researcher"
    else if workers.contains "planner" then some "planner"
    else workers.head?
  else
    let last_result := previous_results.getLastD { success := false, output := "" }
    if truthyOptStr last_result.next_agent then last_result.next_agent
    else
      supervisorWorkflow.find? fun agent_name =>
        workers.contains agent_name &&
          !((agentsUsed previous_results).any (valEqStr · agent_name))

/-- `SupervisorPattern._should_retry`: retry exactly when `iteration < 1`. -/
def SupervisorPattern.shouldRetry (_result : AgentResult) (iteration : Nat) : Bool :=
  iteration < 1

/-- One `_execution_log` entry of the supervisor. -/
def supervisorLogEntry (iteration : Nat) (agentName : String) (r : AgentResult) : Val :=
  Val.dict [("iteration", Val.natV iteration), ("agent", Val.str agentName),
    ("success", Val.boolV r.success),
    ("output_preview", Val.str (pyPreview r.output))]

/-- `SupervisorPattern._compile_final_result`: combined output of the truthy
outputs, merged data, concatenated errors, overall conjunction of
successes. -/
def SupervisorPattern.compileFinalResult (ctx : AgentContext) (log : List Val) :
    AgentResult :=
  if ctx.previous_results.isEmpty then
    { success := false, output := "No agents executed",
      errors := ["Supervisor completed without any agent execution"] }
  else
    { success := ctx.previous_results.all (·.success),
      output := String.intercalate "\n\n---\n\n"
        ((ctx.previous_results.filter (fun r => r.output ≠ "")).map (·.output)),
      data := ctx.previous_results.foldl
        (fun d r => r.data.foldl (fun d' p => dictSet d' p.1 p.2) d) [],
      errors := ctx.previous_results.foldl (fun e r => e ++ r.errors) [],
      metadata := [("agents_used", Val.natV ctx.previous_results.length),
                   ("execution_log", Val.listV log)] }

/-- The `while iteration < self.max_iterations` loop of
`SupervisorPattern.execute`; `fuel = max_iterations - iteration`.  Each pass
asks the decision function for the next worker (terminating with the
compiled aggregate when it returns `None`, or with a configuration failure
when it names an unregistered worker), executes the worker, logs one entry,
appends the result to `previous_results`, and on failure either retries
(when `_should_retry` grants it) or returns the failed result. -/
def SupervisorPattern.loop (decision : AgentContext → List AgentResult → Option String)
    (workers : List (String × Behavior)) (maxIterations : Nat) :
    Nat → Nat → AgentContext → List Val → AgentResult × List Val
  | 0, _, _, log =>
      ({ success := false, output := "Supervisor max iterations reached",
         errors := [s!"Exceeded {maxIterations} iterations"] }, log)
  | fuel + 1, iteration, ctx, log =>
      match decision ctx ctx.previous_results with
      | none => (SupervisorPattern.compileFinalResult ctx log, log)
      | some nextAgentName =>
          match dictGet workers nextAgentName with
          | none =>
              ({ success := false, output := "Supervisor error",
                 errors := ["Worker " ++ pyQuote ++ nextAgentName ++ pyQuote ++
                   " not found"] }, log)
          | some behave =>
              let result := behave ctx
              let log' := log ++ [supervisorLogEntry iteration nextAgentName result]
              let ctx' := { ctx with
                previous_results := ctx.previous_results ++ [result],
                current_iteration := iteration + 1 }
              if result.success then
                SupervisorPattern.loop decision workers maxIterations fuel
                  (iteration + 1) ctx' log'
              else if SupervisorPattern.shouldRetry result iteration then
                SupervisorPattern.loop decision workers maxIterations fuel
                  (iteration + 1) ctx' log'
              else (result, log')

/-- `SupervisorPattern.execute`, returning the result and `_execution_log`. -/
def SupervisorPattern.execute
    (decision : AgentContext → List AgentResult → Option String)
    (workers : List (String × Behavior)) (maxIterations : Nat)
    (ctx : AgentContext) : AgentResult × List Val :=
  SupervisorPattern.loop decision workers maxIterations maxIterations 0 ctx []

/-- The default decision function as `execute` calls it: the key list of the
ordered `_workers` dict, applied to the context's previous results. -/
def SupervisorPattern.defaultDecisionFn (workers : List (String × Behavior)) :
    AgentContext → List AgentResult → Option String :=
  fun _ctx previous_results =>
    SupervisorPattern.defaultDecision (workers.map (·.1)) previous_results

/-- The agent-name entries of an execution log, for reading which workers a
supervisor run invoked. -/
def logAgents (log : List Val) : List String :=
  log.filterMap fun e =>
    match e with
    | Val.dict d =>
        match dictGet d "agent" with
        | some (Val.str s) => some s
        | _ => none
    | _ => none

/-! ### LLMRouter (`src/agent/factory/patterns/router.py`) -/

/-- `AgentRole.value`: the enum string of a role. -/
def AgentRole.value : AgentRole → String
  | .researcher => "researcher"
  | .coder => "coder"
  | .reviewer => "reviewer"
  | .planner => "planner"
  | .tester => "tester"
  | .deployer => "deployer"
  | .orchestrator => "orchestrator"

/-- `RouteDecision` from `src/agent/factory/patterns/router.py`; Python
float confidences are modelled exactly over ℚ. -/
structure RouteDecision : Type where
  agent_name : String
  confidence : ℚ
  reason : String
  model_tier : String
deriving DecidableEq, Repr

/-- The routing state of an `LLMRouter`: `default_agent` plus the
registration-ordered `_keywords`, `_roles` and `_tiers` dicts. -/
structure LLMRouterState : Type where
  default_agent : Option String
  keywords : List (String × List String)
  roles : List (String × AgentRole)
  tiers : List (String × String)

/-- The per-worker score of `LLMRouter.route`: one point per registered
keyword whose lowercase form occurs in the lowercased task, normalized by
the keyword count when the keyword list is non-empty (`mkRat` is the exact
rational value of the float division `score / len(keywords)`; an empty
keyword list keeps the raw score 0.0). -/
def keywordScore (keywords : List String) (task_lower : String) : ℚ :=
  let matched := (keywords.filter fun k => pyIn (pyLower k) task_lower).length
  if keywords.isEmpty then mkRat matched 1 else mkRat matched keywords.length

/-- Python `max(scores, key=scores.get)` over an insertion-ordered dict:
scan left to right, replacing the running best only on a strictly greater
score, so ties keep the earliest-registered worker. -/
def argmaxFirst (l : List (String × ℚ)) : Option (String × ℚ) :=
  l.foldl
    (fun acc p =>
      match acc with
      | none => some p
      | some q => if p.2 > q.2 then some p else some q)
    none

/-- `self._tiers.get(name, "standard")`. -/
def tierOf (st : LLMRouterState) (name : String) : String :=
  (dictGet st.tiers name).getD "standard"

/-- The static `role_keywords` table of `_route_by_role`, in its fixed
iteration order. -/
def roleKeywordTable : List (AgentRole × List String) :=
  [(AgentRole.researcher, ["find", "search", "lookup", "research", "gather", "discover"]),
   (AgentRole.coder, ["implement", "write", "code", "fix", "create", "build", "develop"]),
   (AgentRole.reviewer, ["review", "check", "analyze", "audit", "inspect", "evaluate"]),
   (AgentRole.planner, ["plan", "design", "architect", "structure", "organize"]),
   (AgentRole.tester, ["test", "verify", "validate", "qa", "quality"]),
   (AgentRole.deployer, ["deploy", "release", "publish", "ship", "launch"])]

/-- `LLMRouter._route_by_role`: for each role in table order and each of its
keywords occurring in the task, return the first registered worker of that
role at confidence 0.6 (= `mkRat 3 5`); keep scanning when a keyword misses
or no worker of the role is registered. -/
def LLMRouter.routeByRole (st : LLMRouterState) (task_lower : String) :
    Option RouteDecision :=
  roleKeywordTable.findSome? fun rk =>
    rk.2.findSome? fun keyword =>
      if pyIn keyword task_lower then
        st.roles.findSome? fun nr =>
          if nr.2 = rk.1 then
            some { agent_name := nr.1, confidence := mkRat 3 5,
                   reason := "Matched role " ++ rk.1.value ++ " via keyword " ++
                     pyQuote ++ keyword ++ pyQuote,
                   model_tier := tierOf st nr.1 }
          else none
      else none

/-- The scores dict the `for name, keywords in self._keywords.items()` loop
of `route` builds: one normalized score per registered worker, in
registration order, against the lowercased task. -/
def routerScores (st : LLMRouterState) (task : String) : List (String × ℚ) :=
  st.keywords.map fun p => (p.1, keywordScore p.2 (pyLower task))

/-- `LLMRouter.route` without a custom router: keyword scoring first, then
the static role table, then the default agent; the `ValueError` raised when
none applies is modelled as `Except.error`.  The default fallback is
guarded by Python truthiness (`if self.default_agent:`), so both `None`
and the empty string fall through to the raise. -/
def LLMRouter.route (st : LLMRouterState) (task : String) :
    Except String RouteDecision :=
  let task_lower := pyLower task
  let scores := routerScores st task
  let fromScores : Option RouteDecision :=
    match argmaxFirst scores with
    | none => none
    | some (best_agent, best_score) =>
        if best_score > 0 then
          some { agent_name := best_agent,
                 confidence := min (best_score * 2) 1,
                 reason := "Matched keywords for " ++ best_agent,
                 model_tier := tierOf st best_agent }
        else none
  match fromScores with
  | some d => Except.ok d
  | none =>
      match LLMRouter.routeByRole st task_lower with
      | some d => Except.ok d
      | none =>
          match st.default_agent with
          | some nm =>
              if nm ≠ "" then
                Except.ok { agent_name := nm, confidence := mkRat 3 10,
                            reason := "Using default agent",
                            model_tier := tierOf st nm }
              else Except.error "No agent available to handle task"
          | none => Except.error "No agent available to handle task"

/-! ### A heap model of Python dict aliasing (parallel fan-out isolation)

`ParallelAgents.execute` builds each branch context with
`context.shared_state.copy()`, a *shallow* `dict.copy()`.  To reason about
what a branch can observe of another's mutations, the shared state is
modelled as a heap of dict cells whose values are immutable atoms or
references to other cells — exactly the distinction Python's object
semantics draws. -/

/-- A value inside a heap-allocated dict: an immutable atom, or a reference
to another heap-allocated (mutable) dict. -/
inductive HVal : Type where
  | atom : String → HVal
  | ref : Nat → HVal
deriving DecidableEq, Repr

/-- A heap of dict cells: the allocated cells and the next fresh address. -/
structure Heap : Type where
  cells : List (Nat × List (String × HVal))
  nextAddr : Nat
deriving Repr

/-- The dict stored at address `a` (the empty dict when unallocated). -/
def Heap.read (h : Heap) (a : Nat) : List (String × HVal) :=
  (dictGet h.cells a).getD []

/-- Overwrite the cell at `a` with `d`. -/
def Heap.write (h : Heap) (a : Nat) (d : List (String × HVal)) : Heap :=
  ⟨dictSet h.cells a d, h.nextAddr⟩

/-- Python `d[k] = v` on the dict object at address `a`. -/
def Heap.setKey (h : Heap) (a : Nat) (k : String) (v : HVal) : Heap :=
  h.write a (dictSet (h.read a) k v)

/-- Python `d.copy()` on the dict object at `a`: allocate a fresh cell
holding the same top-level key/value pairs; values that are references keep
pointing at the same cells (a shallow copy). -/
def Heap.shallowCopy (h : Heap) (a : Nat) : Heap × Nat :=
  (⟨h.cells ++ [(h.nextAddr, h.read a)], h.nextAddr + 1⟩, h.nextAddr)

/-- Read `d[k1][k2]` from the dict at `a` through one reference. -/
def Heap.readPath (h : Heap) (a : Nat) (k1 k2 : String) : Option HVal :=
  match dictGet (h.read a) k1 with
  | some (HVal.ref b) => dictGet (h.read b) k2
  | _ => none

/-- Python `d[k1][k2] = v` on the dict at `a`: mutate the nested dict the
reference stored under `k1` points to (a no-op when `k1` holds no
reference). -/
def Heap.setPath (h : Heap) (a : Nat) (k1 k2 : String) (v : HVal) : Heap :=
  match dictGet (h.read a) k1 with
  | some (HVal.ref b) => h.setKey b k2 v
  | _ => h

/-- The per-branch `shared_state` construction of `ParallelAgents.execute`:
one `context.shared_state.copy()` per registered worker, in registration
order; returns the final heap and the branch addresses. -/
def parallelFanOutSharedState (h : Heap) (a : Nat) : Nat → Heap × List Nat
  | 0 => (h, [])
  | n + 1 =>
      let hb := h.shallowCopy a
      let rest := parallelFanOutSharedState hb.1 a n
      (rest.1, hb.2 :: rest.2)

/-- Heap well-formedness: every allocated address is below `nextAddr`. -/
def Heap.WF (h : Heap) : Prop :=
  ∀ p ∈ h.cells, p.1 < h.nextAddr

/-- Two results agree on every field but possibly `metadata`: a consumer
that maps one to the other performed at most metadata enrichment. -/
def SameExceptMetadata (r r' : AgentResult) : Prop :=
  r.success = r'.success ∧ r.output = r'.output ∧ r.data = r'.data ∧
  r.errors = r'.errors ∧ r.next_agent = r'.next_agent

/-- Concrete two-worker fixture used by witnesses: a coder and a tester. -/
def fxWorkers : List (String × Behavior) :=
  [("coder", fun _ => { success := true, output := "c" }),
   ("tester", fun _ => { success := true, output := "t" })]

/-- A previous result labelled as produced by `"coder"`. -/
def fxUsedCoder : AgentResult :=
  { success := true, output := "x", metadata := [("agent_name", Val.str "coder")] }

/-- A researcher behaviour that always fails, labelling itself. -/
def fxResearcherFail : Behavior := fun _ =>
  { success := false, output := "boom",
    metadata := [("agent_name", Val.str "researcher")] }

/-- A planner behaviour that always succeeds, labelling itself. -/
def fxPlannerOk : Behavior := fun _ =>
  { success := true, output := "fine",
    metadata := [("agent_name", Val.str "planner")] }

/-- The failing-researcher / succeeding-planner supervisor fixture. -/
def fxRetryWorkers : List (String × Behavior) :=
  [("researcher", fxResearcherFail), ("planner", fxPlannerOk)]

/-- The `success` entries of an execution log, in order. -/
def logSuccesses (log : List Val) : List Bool :=
  log.filterMap fun e =>
    match e with
    | Val.dict d =>
        match dictGet d "success" with
        | some (Val.boolV b) => some b
        | _ => none
    | _ => none

/-! ## Theorems -/

/-- Writing key `k` of the dict `d` leaves every other key's value
unchanged. -/
theorem dictGet_dictSet_ne {κ α : Type} [DecidableEq κ]
    (d : List (κ × α)) (k k' : κ) (v : α) (h : k' ≠ k) :
    dictGet (dictSet d k v) k' = dictGet d k' := by
  induction d with
  | nil => simp [dictSet, dictGet, Ne.symm h]
  | cons p rest ih =>
      by_cases hp : p.1 = k
      · simp [dictSet, dictGet, hp, h, Ne.symm h]
      · simp only [dictSet]
        rw [if_neg (by exact hp)]
        by_cases hp' : p.1 = k'
        · simp [dictGet, hp']
        · simp [dictGet, hp', ih]

/-- Writing key `k` of the dict `d` makes `k` hold `v`. -/
theorem dictGet_dictSet_self {κ α : Type} [DecidableEq κ]
    (d : List (κ × α)) (k : κ) (v : α) :
    dictGet (dictSet d k v) k = some v := by
  induction d with
  | nil => simp [dictSet, dictGet]
  | cons p rest ih =>
      by_cases hp : p.1 = k
      · simp [dictSet, dictGet, hp]
      · simp [dictSet, dictGet, hp, ih]

/-- Looking a key up in a concatenation: the left dict wins when it knows
the key. -/
theorem dictGet_append {κ α : Type} [DecidableEq κ]
    (d1 d2 : List (κ × α)) (k : κ) :
    dictGet (d1 ++ d2) k = (dictGet d1 k).orElse (fun _ => dictGet d2 k) := by
  induction d1 with
  | nil => simp [dictGet]
  | cons p rest ih =>
      by_cases hp : p.1 = k
      · simp [dictGet, hp]
      · simp [dictGet, hp, ih]

/-- Each pass of the handoff loop appends at most one history entry per unit
of fuel, so the number of worker executions (= history entries) is bounded by
the fuel. -/
theorem AgentHandoff.loop_history_length (registry : List (String × Worker))
    (maxH : Nat) :
    ∀ (fuel : Nat) (w : Worker) (ctx : AgentContext) (hist : List Val),
      (AgentHandoff.loop registry maxH fuel w ctx hist).history.length ≤
        hist.length + fuel := by
  intro fuel
  induction fuel with
  | zero =>
      intro w ctx hist
      simp [AgentHandoff.loop]
  | succ f ih =>
      intro w ctx hist
      unfold AgentHandoff.loop
      cases hna : (w.behave ctx).next_agent with
      | none =>
          simp [hna]
      | some nm =>
          cases hreg : dictGet registry nm with
          | none =>
              simp [hna, hreg]
          | some nextAgent =>
              simp only [hna, hreg]
              calc (AgentHandoff.loop registry maxH f nextAgent _
                      (hist ++ [handoffHistEntry w.name (w.behave ctx)])).history.length
                  ≤ (hist ++ [handoffHistEntry w.name (w.behave ctx)]).length + f := ih _ _ _
                _ ≤ hist.length + (f + 1) := by simp; omega

/-- When the handoff loop exits by exhausting its fuel, the returned result
is the synthetic exhaustion failure. -/
theorem AgentHandoff.loop_exhausted_result (registry : List (String × Worker))
    (maxH : Nat) :
    ∀ (fuel : Nat) (w : Worker) (ctx : AgentContext) (hist : List Val),
      (AgentHandoff.loop registry maxH fuel w ctx hist).exhausted = true →
      (AgentHandoff.loop registry maxH fuel w ctx hist).result =
        { success := false, output := "Maximum handoffs reached",
          errors := [s!"Exceeded max handoffs ({maxH})"] } := by
  intro fuel
  induction fuel with
  | zero =>
      intro w ctx hist _
      rfl
  | succ f ih =>
      intro w ctx hist h
      unfold AgentHandoff.loop at h ⊢
      cases hna : (w.behave ctx).next_agent with
      | none => simp [hna] at h
      | some nm =>
          cases hreg : dictGet registry nm with
          | none => simp [hna, hreg] at h
          | some nx =>
              simp only [hna, hreg] at h ⊢
              exact ih _ _ _ h

/-- Claim C8: for every registry, initial worker, context and bound
`m ≥ 0`, `execute_with_handoff` executes workers at most `m + 1` times
(each execution appends exactly one history entry, so executions are
counted by the history), regardless of the chain of `next_agent` signals;
and when the loop exits by exhausting `max_handoffs` it returns a synthetic
failed result whose errors contain `"Exceeded max handoffs (m)"`. -/
theorem handoff_bound_and_exhaustion_error (registry : List (String × Worker))
    (initialAgent : Worker) (ctx : AgentContext) (m : Nat) :
    (AgentHandoff.executeWithHandoff registry initialAgent ctx m).history.length ≤ m + 1 ∧
    ((AgentHandoff.executeWithHandoff registry initialAgent ctx m).exhausted = true →
      (AgentHandoff.executeWithHandoff registry initialAgent ctx m).result.success = false ∧
      s!"Exceeded max handoffs ({m})" ∈
        (AgentHandoff.executeWithHandoff registry initialAgent ctx m).result.errors) := by
  constructor
  · have h := AgentHandoff.loop_history_length registry m m initialAgent ctx []
    simp only [List.length_nil, Nat.zero_add] at h
    exact le_trans h (Nat.le_succ m)
  · intro hex
    have hr := AgentHandoff.loop_exhausted_result registry m m initialAgent ctx [] hex
    have hr' : (AgentHandoff.executeWithHandoff registry initialAgent ctx m).result =
        { success := false, output := "Maximum handoffs reached",
          errors := [s!"Exceeded max handoffs ({m})"] } := hr
    rw [hr']
    exact ⟨rfl, List.mem_singleton.mpr rfl⟩

/-- Witness for C8: a registry whose one worker always hands off to itself,
with bound 1 — the loop exhausts after one execution and reports the bound
in its error. -/
theorem handoff_bound_and_exhaustion_error_witness :
    (AgentHandoff.executeWithHandoff
        [("a", ⟨"a", fun _ => { success := true, output := "again", next_agent := some "a" }⟩)]
        ⟨"a", fun _ => { success := true, output := "again", next_agent := some "a" }⟩
        { task := "t" } 1).history.length ≤ 2 ∧
    ((AgentHandoff.executeWithHandoff
        [("a", ⟨"a", fun _ => { success := true, output := "again", next_agent := some "a" }⟩)]
        ⟨"a", fun _ => { success := true, output := "again", next_agent := some "a" }⟩
        { task := "t" } 1).result.success = false ∧
      "Exceeded max handoffs (1)" ∈
        (AgentHandoff.executeWithHandoff
          [("a", ⟨"a", fun _ => { success := true, output := "again", next_agent := some "a" }⟩)]
          ⟨"a", fun _ => { success := true, output := "again", next_agent := some "a" }⟩
          { task := "t" } 1).result.errors) :=
  ⟨(handoff_bound_and_exhaustion_error
      [("a", ⟨"a", fun _ => { success := true, output := "again", next_agent := some "a" }⟩)]
      ⟨"a", fun _ => { success := true, output := "again", next_agent := some "a" }⟩
      { task := "t" } 1).1,
   (handoff_bound_and_exhaustion_error
      [("a", ⟨"a", fun _ => { success := true, output := "again", next_agent := some "a" }⟩)]
      ⟨"a", fun _ => { success := true, output := "again", next_agent := some "a" }⟩
      { task := "t" } 1).2 (by decide)⟩

/-- Claim C3 counterexample: `AgentHandoff.execute_with_handoff`, given a
worker whose result names an unregistered `next_agent` and an empty
registry, returns that worker result with its `errors` list mutated (one
appended entry) — the caller does not observe the errors the worker
returned, refuting that patterns leave every non-metadata field unchanged. -/
theorem handoff_mutates_errors_counterexample :
    (AgentHandoff.executeWithHandoff []
        ⟨"planner0", fun _ => { success := true, output := "plan done", next_agent := some "ghost" }⟩
        { task := "t" } 5).result.errors ≠
      ({ success := true, output := "plan done", next_agent := some "ghost" : AgentResult}).errors := by
  decide

/-- A dict none of whose entries carries key `k` does not know `k`. -/
theorem dictGet_eq_none {κ α : Type} [DecidableEq κ] (d : List (κ × α)) (k : κ)
    (h : ∀ p ∈ d, p.1 ≠ k) : dictGet d k = none := by
  induction d with
  | nil => rfl
  | cons p rest ih =>
      simp only [dictGet]
      rw [if_neg (h p (List.mem_cons_self p rest))]
      exact ih fun q hq => h q (List.mem_cons_of_mem p hq)

/-- `setKey` on cell `b` leaves every other cell's dict unchanged. -/
theorem Heap.read_setKey_ne (h : Heap) (b c : Nat) (k : String) (v : HVal)
    (hcb : c ≠ b) : (h.setKey b k v).read c = h.read c := by
  unfold Heap.setKey Heap.write Heap.read
  rw [dictGet_dictSet_ne _ _ _ _ hcb]

/-- The parallel fan-out allocates the fresh addresses
`nextAddr, …, nextAddr + n - 1` in registration order, preserves every
previously allocated cell, stays well-formed, and gives each branch cell
the caller's current top-level dict. -/
theorem parallelFanOutSharedState_spec (a : Nat) :
    ∀ (n : Nat) (h : Heap), h.WF → a < h.nextAddr →
      (parallelFanOutSharedState h a n).2 = List.range' h.nextAddr n ∧
      (parallelFanOutSharedState h a n).1.nextAddr = h.nextAddr + n ∧
      (parallelFanOutSharedState h a n).1.WF ∧
      (∀ c, c < h.nextAddr → (parallelFanOutSharedState h a n).1.read c = h.read c) ∧
      (∀ b ∈ (parallelFanOutSharedState h a n).2,
        (parallelFanOutSharedState h a n).1.read b = h.read a) := by
  intro n
  induction n with
  | zero =>
      intro h hwf ha
      exact ⟨rfl, rfl, hwf, fun c _ => rfl, by simp [parallelFanOutSharedState]⟩
  | succ m ih =>
      intro h hwf ha
      have hnew : dictGet h.cells h.nextAddr = none :=
        dictGet_eq_none _ _ fun p hp => Nat.ne_of_lt (hwf p hp)
      set h1 : Heap := ⟨h.cells ++ [(h.nextAddr, h.read a)], h.nextAddr + 1⟩ with hh1
      have hwf1 : h1.WF := by
        intro p hp
        rcases List.mem_append.mp hp with hp | hp
        · exact Nat.lt_succ_of_lt (hwf p hp)
        · simp only [List.mem_singleton] at hp
          rw [hp]
          exact Nat.lt_succ_self _
      have ha1 : a < h1.nextAddr := Nat.lt_succ_of_lt ha
      have hread1 : ∀ c, c ≠ h.nextAddr → h1.read c = h.read c := by
        intro c hc
        show ((dictGet (h.cells ++ [(h.nextAddr, h.read a)]) c).getD []) = h.read c
        rw [dictGet_append]
        cases hx : dictGet h.cells c <;>
          simp [Option.orElse, hx, dictGet, Ne.symm hc, Heap.read]
      have hreadnew : h1.read h.nextAddr = h.read a := by
        show ((dictGet (h.cells ++ [(h.nextAddr, h.read a)]) h.nextAddr).getD []) =
          h.read a
        rw [dictGet_append, hnew]
        simp [Option.orElse, dictGet]
      have hstep : parallelFanOutSharedState h a (m + 1) =
          ((parallelFanOutSharedState h1 a m).1,
            h.nextAddr :: (parallelFanOutSharedState h1 a m).2) := by
        simp [parallelFanOutSharedState, Heap.shallowCopy, hh1]
      obtain ⟨ihaddr, ihnext, ihwf, ihold, ihcopy⟩ := ih h1 hwf1 ha1
      rw [hstep]
      refine ⟨?_, ?_, ihwf, ?_, ?_⟩
      · simp only [ihaddr]
        rfl
      · rw [ihnext]
        show h.nextAddr + 1 + m = h.nextAddr + (m + 1)
        omega
      · intro c hc
        rw [ihold c (Nat.lt_succ_of_lt hc), hread1 c (Nat.ne_of_lt hc)]
      · intro b hb
        rcases List.mem_cons.mp hb with hb | hb
        · rw [hb, ihold h.nextAddr (Nat.lt_succ_self _), hreadnew]
        · rw [ihcopy b hb, hread1 a (Nat.ne_of_lt ha)]

/-- Claim C1 counterexample: with the caller's `shared_state` holding a
nested dict (heap cell 0 is `{"cfg": <ref to cell 1>}`, cell 1 is
`{"x": "old"}`), the two branch copies built by `ParallelAgents.execute`
share cell 1: after branch 1 performs `shared_state["cfg"]["x"] = "new"`
through its own copy (address 2), branch 2 reads `"new"` through its copy
(address 3) where it read `"old"` before — one branch observes the other's
in-flight mutation of a nested mutable structure inside `shared_state`, so
the contexts are not value-isolated. -/
theorem parallel_nested_shared_state_not_isolated :
    (parallelFanOutSharedState
        ⟨[(0, [("cfg", HVal.ref 1)]), (1, [("x", HVal.atom "old")])], 2⟩ 0 2).2 = [2, 3] ∧
    (parallelFanOutSharedState
        ⟨[(0, [("cfg", HVal.ref 1)]), (1, [("x", HVal.atom "old")])], 2⟩ 0 2).1.readPath 3
        "cfg" "x" = some (HVal.atom "old") ∧
    ((parallelFanOutSharedState
        ⟨[(0, [("cfg", HVal.ref 1)]), (1, [("x", HVal.atom "old")])], 2⟩ 0 2).1.setPath 2
        "cfg" "x" (HVal.atom "new")).readPath 3 "cfg" "x" = some (HVal.atom "new") := by
  refine ⟨by decide, by decide, by decide⟩

/-- Claim C1 (amended): each branch receives a fresh shallow copy of the
caller's `shared_state` — the branch dict objects are pairwise distinct and
distinct from the caller's, each initially holds the caller's top-level
entries, and a top-level assignment through one branch's copy is invisible
when any other branch (or the caller) reads its own copy.  Value-isolation
stops at the top level: nested mutable structures stay shared (see the
counterexample). -/
theorem parallel_shared_state_top_level_isolation (h : Heap) (a n : Nat)
    (hwf : h.WF) (ha : a < h.nextAddr) :
    (parallelFanOutSharedState h a n).2.Nodup ∧
    a ∉ (parallelFanOutSharedState h a n).2 ∧
    (∀ b ∈ (parallelFanOutSharedState h a n).2,
      (parallelFanOutSharedState h a n).1.read b = h.read a) ∧
    (∀ b ∈ (parallelFanOutSharedState h a n).2, ∀ c, c ≠ b → ∀ k v,
      ((parallelFanOutSharedState h a n).1.setKey b k v).read c =
        (parallelFanOutSharedState h a n).1.read c) := by
  obtain ⟨haddr, -, -, -, hcopy⟩ := parallelFanOutSharedState_spec a n h hwf ha
  refine ⟨?_, ?_, hcopy, ?_⟩
  · rw [haddr]
    exact List.nodup_range' _ _
  · rw [haddr]
    intro hmem
    have := List.mem_range'_1.mp hmem
    omega
  · intro b _ c hcb k v
    exact Heap.read_setKey_ne _ _ _ _ _ hcb

/-- Witness for the amended C1 at the concrete two-branch heap of the
counterexample: the copies are the fresh addresses 2 and 3, they hold the
caller's entries, and top-level writes through one copy are invisible to
the other and to the caller. -/
theorem parallel_shared_state_top_level_isolation_witness :
    (parallelFanOutSharedState
        ⟨[(0, [("cfg", HVal.ref 1)]), (1, [("x", HVal.atom "old")])], 2⟩ 0 2).2.Nodup ∧
    0 ∉ (parallelFanOutSharedState
        ⟨[(0, [("cfg", HVal.ref 1)]), (1, [("x", HVal.atom "old")])], 2⟩ 0 2).2 ∧
    (∀ b ∈ (parallelFanOutSharedState
        ⟨[(0, [("cfg", HVal.ref 1)]), (1, [("x", HVal.atom "old")])], 2⟩ 0 2).2,
      (parallelFanOutSharedState
        ⟨[(0, [("cfg", HVal.ref 1)]), (1, [("x", HVal.atom "old")])], 2⟩ 0 2).1.read b =
        Heap.read ⟨[(0, [("cfg", HVal.ref 1)]), (1, [("x", HVal.atom "old")])], 2⟩ 0) ∧
    (∀ b ∈ (parallelFanOutSharedState
        ⟨[(0, [("cfg", HVal.ref 1)]), (1, [("x", HVal.atom "old")])], 2⟩ 0 2).2, ∀ c, c ≠ b →
      ∀ k v,
      ((parallelFanOutSharedState
          ⟨[(0, [("cfg", HVal.ref 1)]), (1, [("x", HVal.atom "old")])], 2⟩ 0 2).1.setKey b k
            v).read c =
        (parallelFanOutSharedState
          ⟨[(0, [("cfg", HVal.ref 1)]), (1, [("x", HVal.atom "old")])], 2⟩ 0 2).1.read c) :=
  parallel_shared_state_top_level_isolation
    ⟨[(0, [("cfg", HVal.ref 1)]), (1, [("x", HVal.atom "old")])], 2⟩ 0 2
    (by unfold Heap.WF; decide) (by decide)

/-- Claim C3 (amended): the patterns leave `success`, `output`, `data` and
`next_agent` of every worker result unchanged and enrich at most
`metadata` — the parallel agent-name label and the sequential stage tag
touch only `metadata`, the supervisor returns a terminal failed worker
result exactly as the worker produced it, and the handoff returns a result
without a `next_agent` unchanged; `errors` is also unchanged everywhere
EXCEPT in `AgentHandoff` when the result names an unregistered next agent,
where exactly one "Handoff failed" message is appended to the returned
result's `errors` (appending changes no other field). -/
theorem patterns_touch_only_metadata_except_handoff_errors :
    (∀ (nm : String) (r : AgentResult), SameExceptMetadata r (labelAgentName nm r)) ∧
    (∀ (nm : String) (i : Nat) (r : AgentResult), SameExceptMetadata r (stageTag nm i r)) ∧
    (∀ (r : AgentResult) (e : String),
      (r.appendError e).success = r.success ∧ (r.appendError e).output = r.output ∧
      (r.appendError e).data = r.data ∧ (r.appendError e).next_agent = r.next_agent ∧
      (r.appendError e).metadata = r.metadata ∧
      (r.appendError e).errors = r.errors ++ [e]) ∧
    (∀ (decision : AgentContext → List AgentResult → Option String)
       (workers : List (String × Behavior)) (maxIterations fuel iteration : Nat)
       (ctx : AgentContext) (log : List Val) (nm : String) (b : Behavior),
       decision ctx ctx.previous_results = some nm →
       dictGet workers nm = some b →
       (b ctx).success = false →
       SupervisorPattern.shouldRetry (b ctx) iteration = false →
       (SupervisorPattern.loop decision workers maxIterations (fuel + 1) iteration ctx log).1 =
         b ctx) ∧
    (∀ (registry : List (String × Worker)) (maxH fuel : Nat) (w : Worker)
       (ctx : AgentContext) (hist : List Val),
       ((w.behave ctx).next_agent = none →
         (AgentHandoff.loop registry maxH (fuel + 1) w ctx hist).result = w.behave ctx) ∧
       (∀ nm, (w.behave ctx).next_agent = some nm → dictGet registry nm = none →
         (AgentHandoff.loop registry maxH (fuel + 1) w ctx hist).result =
           (w.behave ctx).appendError (handoffFailedMsg nm))) := by
  refine ⟨?_, ?_, ?_, ?_, ?_⟩
  · intro nm r
    exact ⟨rfl, rfl, rfl, rfl, rfl⟩
  · intro nm i r
    exact ⟨rfl, rfl, rfl, rfl, rfl⟩
  · intro r e
    exact ⟨rfl, rfl, rfl, rfl, rfl, rfl⟩
  · intro decision workers maxI fuel iteration ctx log nm b hdec hw hfail hretry
    unfold SupervisorPattern.loop
    simp [hdec, hw, hfail, hretry]
  · intro registry maxH fuel w ctx hist
    constructor
    · intro hna
      unfold AgentHandoff.loop
      simp [hna]
    · intro nm hna hreg
      unfold AgentHandoff.loop
      simp [hna, hreg]

/-- Witness for the amended C3 at concrete inputs: a labelled result, a
tagged result, an appended error, a supervisor run whose worker fails past
the retry window, and a handoff to an unregistered agent. -/
theorem patterns_touch_only_metadata_witness :
    SameExceptMetadata ({ success := true, output := "x" } : AgentResult)
      (labelAgentName "A" { success := true, output := "x" }) ∧
    SameExceptMetadata ({ success := true, output := "x" } : AgentResult)
      (stageTag "s" 0 { success := true, output := "x" }) ∧
    (SupervisorPattern.loop (fun _ _ => some "w")
        [("w", fun _ => { success := false, output := "bad" })] 10 1 1
        { task := "t" } []).1 =
      ({ success := false, output := "bad" } : AgentResult) ∧
    (AgentHandoff.loop [] 5 1
        ⟨"p", fun _ => { success := true, output := "o", next_agent := some "ghost" }⟩
        { task := "t" } []).result =
      ({ success := true, output := "o", next_agent := some "ghost" } : AgentResult).appendError
        (handoffFailedMsg "ghost") :=
  ⟨patterns_touch_only_metadata_except_handoff_errors.1 "A" { success := true, output := "x" },
   patterns_touch_only_metadata_except_handoff_errors.2.1 "s" 0 { success := true, output := "x" },
   patterns_touch_only_metadata_except_handoff_errors.2.2.2.1
     (fun _ _ => some "w") [("w", fun _ => { success := false, output := "bad" })]
     10 0 1 { task := "t" } [] "w" (fun _ => { success := false, output := "bad" })
     rfl rfl rfl rfl,
   (patterns_touch_only_metadata_except_handoff_errors.2.2.2.2 [] 5 0
     ⟨"p", fun _ => { success := true, output := "o", next_agent := some "ghost" }⟩
     { task := "t" } []).2 "ghost" rfl rfl⟩

/-- Claim C10: re-registering a second agent under an existing name replaces
the name index (`get` returns the new agent, `list_all` contains the new but
not the old), yet the role index still contains the superseded old agent in
addition to the new one — `register` never removes the old agent from
`_by_role`. -/
theorem registry_reregister_leaves_stale_role_entry (a1 a2 : BaseAgent)
    (hn : a1.name = a2.name) (hr : a1.role = a2.role) (hne : a1 ≠ a2) :
    ((AgentRegistry.empty.register a1).register a2).get a1.name = some a2 ∧
    a2 ∈ ((AgentRegistry.empty.register a1).register a2).listAll ∧
    a1 ∉ ((AgentRegistry.empty.register a1).register a2).listAll ∧
    a1 ∈ ((AgentRegistry.empty.register a1).register a2).getByRole a1.role ∧
    a2 ∈ ((AgentRegistry.empty.register a1).register a2).getByRole a1.role := by
  have hreg : (AgentRegistry.empty.register a1).register a2 =
      ⟨[(a1.name, a2)], [(a1.role, [a1, a2])]⟩ := by
    simp [AgentRegistry.register, AgentRegistry.empty, dictSet, dictGet, hn, hr]
  refine ⟨?_, ?_, ?_, ?_, ?_⟩ <;>
    simp [hreg, AgentRegistry.get, AgentRegistry.getByRole, AgentRegistry.listAll,
      dictGet, hn, hr, hne]

/-- Witness for C10 at two concrete same-name same-role agents with distinct
identities. -/
theorem registry_reregister_leaves_stale_role_entry_witness :
    let a1 : BaseAgent := ⟨"dup", AgentRole.researcher, 0⟩
    let a2 : BaseAgent := ⟨"dup", AgentRole.researcher, 1⟩
    ((AgentRegistry.empty.register a1).register a2).get a1.name = some a2 ∧
    a2 ∈ ((AgentRegistry.empty.register a1).register a2).listAll ∧
    a1 ∉ ((AgentRegistry.empty.register a1).register a2).listAll ∧
    a1 ∈ ((AgentRegistry.empty.register a1).register a2).getByRole a1.role ∧
    a2 ∈ ((AgentRegistry.empty.register a1).register a2).getByRole a1.role :=
  registry_reregister_leaves_stale_role_entry
    ⟨"dup", AgentRole.researcher, 0⟩ ⟨"dup", AgentRole.researcher, 1⟩
    rfl rfl (by decide)

/-- Labelling writes the agent name into the metadata. -/
theorem dictGet_labelAgentName (nm : String) (r : AgentResult) :
    dictGet (labelAgentName nm r).metadata "agent_name" = some (Val.str nm) := by
  unfold labelAgentName
  exact dictGet_dictSet_self _ _ _

/-- The default aggregator reads back exactly the label it was given. -/
theorem metaAgentName_labelAgentName (nm : String) (r : AgentResult) :
    metaAgentName (labelAgentName nm r) = nm := by
  unfold metaAgentName
  rw [dictGet_labelAgentName]

/-- Unfolding the aggregation fold of `_default_aggregator`: the four
accumulator components evolve independently. -/
theorem foldl_aggStep (results : List AgentResult) (o : List String)
    (d : List (String × Val)) (e : List String) (s : Bool) :
    results.foldl aggStep (o, d, e, s) =
      (o ++ results.map (fun r => "## " ++ metaAgentName r ++ "\n" ++ r.output),
       results.foldl (fun d' r => dictSet d' (metaAgentName r) (Val.dict r.data)) d,
       e ++ (results.map AgentResult.errors).flatten,
       s && results.all (·.success)) := by
  induction results generalizing o d e s with
  | nil => simp
  | cons r rest ih =>
      simp only [List.foldl_cons, aggStep, List.map_cons, List.flatten_cons, List.all_cons]
      rw [ih]
      simp [List.append_assoc, Bool.and_assoc]

/-- A key written by none of the folded results passes through the data
fold untouched. -/
theorem foldl_dictSet_lookup_ne (results : List AgentResult)
    (d : List (String × Val)) (k : String)
    (h : ∀ r ∈ results, metaAgentName r ≠ k) :
    dictGet (results.foldl (fun d' r => dictSet d' (metaAgentName r) (Val.dict r.data)) d) k
      = dictGet d k := by
  induction results generalizing d with
  | nil => rfl
  | cons r rest ih =>
      simp only [List.foldl_cons]
      rw [ih _ (fun q hq => h q (List.mem_cons_of_mem _ hq)),
        dictGet_dictSet_ne _ _ _ _ (Ne.symm (h r (List.mem_cons_self _ _)))]

/-- The observable fields of `_default_aggregator`. -/
theorem defaultAggregator_fields (results : List AgentResult) :
    (ParallelAgents.defaultAggregator results).success = results.all (·.success) ∧
    (ParallelAgents.defaultAggregator results).output =
      String.intercalate "\n\n"
        (results.map fun r => "## " ++ metaAgentName r ++ "\n" ++ r.output) ∧
    (ParallelAgents.defaultAggregator results).errors =
      (results.map AgentResult.errors).flatten ∧
    (ParallelAgents.defaultAggregator results).data =
      results.foldl (fun d' r => dictSet d' (metaAgentName r) (Val.dict r.data)) [] ∧
    (ParallelAgents.defaultAggregator results).metadata =
      [("agent_count", Val.natV results.length),
       ("success_count", Val.natV (results.filter (·.success)).length),
       ("failure_count", Val.natV (results.filter (fun r => !r.success)).length)] := by
  unfold ParallelAgents.defaultAggregator
  rw [foldl_aggStep]
  simp

/-- Claim C4: with `fail_fast = False` and every branch completing, a run
over `N ≥ 1` registered workers hands the aggregator exactly `N` branch
results in registration order, each labelled with `metadata["agent_name"]`;
and the default aggregator returns success equal to the conjunction of the
branch successes, output made of the `"## <agent_name>\n<output>"` blocks
in that order, data keyed by agent name, all errors concatenated, and
`agent_count`/`success_count`/`failure_count` in its metadata. -/
theorem parallel_completeness_and_default_aggregation
    (agents : List (String × Behavior)) (ctx : AgentContext)
    (hne : agents ≠ []) (hnodup : (agents.map Prod.fst).Nodup) :
    (parallelBranchResults agents ctx).length = agents.length ∧
    (∀ (i : Nat) (nm : String) (b : Behavior), agents[i]? = some (nm, b) →
      (parallelBranchResults agents ctx)[i]? =
        some (labelAgentName nm (b (parallelChildContext ctx))) ∧
      dictGet (labelAgentName nm (b (parallelChildContext ctx))).metadata "agent_name" =
        some (Val.str nm)) ∧
    ParallelAgents.execute agents ParallelAgents.defaultAggregator ctx =
      ParallelAgents.defaultAggregator (parallelBranchResults agents ctx) ∧
    (ParallelAgents.execute agents ParallelAgents.defaultAggregator ctx).success =
      (parallelBranchResults agents ctx).all (·.success) ∧
    (ParallelAgents.execute agents ParallelAgents.defaultAggregator ctx).output =
      String.intercalate "\n\n" ((parallelBranchResults agents ctx).map
        fun r => "## " ++ metaAgentName r ++ "\n" ++ r.output) ∧
    (ParallelAgents.execute agents ParallelAgents.defaultAggregator ctx).errors =
      ((parallelBranchResults agents ctx).map AgentResult.errors).flatten ∧
    (∀ (i : Nat) (nm : String) (b : Behavior), agents[i]? = some (nm, b) →
      dictGet (ParallelAgents.execute agents ParallelAgents.defaultAggregator ctx).data nm =
        some (Val.dict (b (parallelChildContext ctx)).data)) ∧
    dictGet (ParallelAgents.execute agents ParallelAgents.defaultAggregator ctx).metadata
      "agent_count" = some (Val.natV agents.length) ∧
    dictGet (ParallelAgents.execute agents ParallelAgents.defaultAggregator ctx).metadata
      "success_count" =
      some (Val.natV ((parallelBranchResults agents ctx).filter (·.success)).length) ∧
    dictGet (ParallelAgents.execute agents ParallelAgents.defaultAggregator ctx).metadata
      "failure_count" =
      some (Val.natV ((parallelBranchResults agents ctx).filter (fun r => !r.success)).length)
    := by
  have hex : ParallelAgents.execute agents ParallelAgents.defaultAggregator ctx =
      ParallelAgents.defaultAggregator (parallelBranchResults agents ctx) := by
    unfold ParallelAgents.execute
    rw [if_neg]
    simpa [List.isEmpty_iff] using hne
  obtain ⟨hsu, hout, herr, hdata, hmeta⟩ :=
    defaultAggregator_fields (parallelBranchResults agents ctx)
  refine ⟨by simp [parallelBranchResults], ?_, hex, ?_, ?_, ?_, ?_, ?_, ?_, ?_⟩
  · intro i nm b hi
    constructor
    · simp [parallelBranchResults, List.getElem?_map, hi]
    · exact dictGet_labelAgentName _ _
  · rw [hex, hsu]
  · rw [hex, hout]
  · rw [hex, herr]
  · intro i nm b hi
    rw [hex, hdata]
    obtain ⟨hlt, hv⟩ := List.getElem?_eq_some.mp hi
    have hsplit : agents = agents.take i ++ agents[i] :: agents.drop (i + 1) := by
      conv_lhs => rw [← List.take_append_drop i agents]
      rw [List.drop_eq_getElem_cons hlt]
    have hnames : agents.map Prod.fst =
        (agents.take i).map Prod.fst ++ nm :: (agents.drop (i + 1)).map Prod.fst := by
      conv_lhs => rw [hsplit]
      simp [hv]
    have hnm_not : nm ∉ (agents.drop (i + 1)).map Prod.fst := by
      have hsub : (nm :: (agents.drop (i + 1)).map Prod.fst).Sublist (agents.map Prod.fst) := by
        rw [hnames]
        exact List.sublist_append_right _ _
      exact (List.nodup_cons.mp (hsub.nodup hnodup)).1
    have hres : parallelBranchResults agents ctx =
        parallelBranchResults (agents.take i) ctx ++
          labelAgentName nm (b (parallelChildContext ctx)) ::
            parallelBranchResults (agents.drop (i + 1)) ctx := by
      conv_lhs => rw [hsplit]
      simp [parallelBranchResults, hv]
    rw [hres, List.foldl_append, List.foldl_cons, metaAgentName_labelAgentName]
    rw [foldl_dictSet_lookup_ne]
    · exact dictGet_dictSet_self _ _ _
    · intro r hr
      simp only [parallelBranchResults, List.mem_map] at hr
      obtain ⟨p, hp, hpr⟩ := hr
      rw [← hpr, metaAgentName_labelAgentName]
      intro hcontra
      exact hnm_not (hcontra ▸ List.mem_map_of_mem Prod.fst hp)
  · rw [hex, hmeta]
    simp [dictGet, parallelBranchResults]
  · rw [hex, hmeta]
    simp [dictGet]
  · rw [hex, hmeta]
    simp [dictGet]

/-- Witness for C4 at two concrete workers, one failing. -/
theorem parallel_completeness_witness :
    ((parallelBranchResults
        [("A", fun _ => { success := true, output := "outA" }),
         ("B", fun _ => { success := false, output := "outB", errors := ["kaboom"] })]
        { task := "t" }).length = 2) ∧
    (ParallelAgents.execute
        [("A", fun _ => { success := true, output := "outA" }),
         ("B", fun _ => { success := false, output := "outB", errors := ["kaboom"] })]
        ParallelAgents.defaultAggregator { task := "t" }).success =
      (parallelBranchResults
        [("A", fun _ => { success := true, output := "outA" }),
         ("B", fun _ => { success := false, output := "outB", errors := ["kaboom"] })]
        { task := "t" }).all (·.success) ∧
    dictGet (ParallelAgents.execute
        [("A", fun _ => { success := true, output := "outA" }),
         ("B", fun _ => { success := false, output := "outB", errors := ["kaboom"] })]
        ParallelAgents.defaultAggregator { task := "t" }).metadata "agent_count" =
      some (Val.natV 2) := by
  have h := parallel_completeness_and_default_aggregation
    [("A", fun _ => { success := true, output := "outA" }),
     ("B", fun _ => { success := false, output := "outB", errors := ["kaboom"] })]
    { task := "t" } (by simp) (by simp)
  exact ⟨h.1, h.2.2.2.1, h.2.2.2.2.2.2.2.1⟩

/-- `fillCancelled` read pointwise: each slot keeps its recorded result or
receives its own registration-order cancelled placeholder. -/
theorem fillCancelled_getElem? (names : List String) :
    ∀ (slots : List (Option AgentResult)) (i : Nat),
      (fillCancelled names slots)[i]? =
        (names[i]?).bind fun nm =>
          (slots[i]?).map fun s => s.getD (cancelledResult nm) := by
  induction names with
  | nil =>
      intro slots i
      simp [fillCancelled]
  | cons n names ih =>
      intro slots i
      cases slots with
      | nil => simp [fillCancelled]
      | cons s slots =>
          cases i with
          | zero => simp [fillCancelled]
          | succ j => simpa [fillCancelled] using ih slots j

/-- Recording completions never changes the number of slots. -/
theorem foldl_set_length (res : Nat → AgentResult) (pre : List Nat) :
    ∀ (slots : List (Option AgentResult)),
      (pre.foldl (fun s j => s.set j (some (res j))) slots).length = slots.length := by
  induction pre with
  | nil => intro slots; rfl
  | cons j pre ih => intro slots; rw [List.foldl_cons, ih, List.length_set]

/-- The slot list after recording the completions `pre`, read pointwise. -/
theorem foldl_set_getElem? (res : Nat → AgentResult) (pre : List Nat) :
    ∀ (slots : List (Option AgentResult)) (i : Nat), i < slots.length →
      (pre.foldl (fun s j => s.set j (some (res j))) slots)[i]? =
        if i ∈ pre then some (some (res i)) else slots[i]? := by
  induction pre with
  | nil =>
      intro slots i _
      simp
  | cons j pre ih =>
      intro slots i hi
      rw [List.foldl_cons, ih _ i (by simpa using hi)]
      by_cases hmem : i ∈ pre
      · simp [hmem, List.mem_cons]
      · by_cases hij : i = j
        · subst hij
          simp [hmem, List.getElem?_set_self hi]
        · simp [hmem, hij, List.getElem?_set_ne (Ne.symm hij)]

/-- The fail-fast loop first records the successful completions of `pre`,
then acts on the rest of the schedule. -/
theorem failFastLoop_append_successes (names : List String) (res : Nat → AgentResult)
    (pre : List Nat) :
    ∀ (rest : List Nat) (slots : List (Option AgentResult)),
      (∀ j ∈ pre, (res j).success = true) →
      ParallelAgents.failFastLoop names res (pre ++ rest) slots =
        ParallelAgents.failFastLoop names res rest
          (pre.foldl (fun s j => s.set j (some (res j))) slots) := by
  induction pre with
  | nil => intro rest slots _; rfl
  | cons j pre ih =>
      intro rest slots h
      rw [List.cons_append, List.foldl_cons]
      show (if (res j).success then _ else _) = _
      rw [if_pos (h j (List.mem_cons_self _ _))]
      exact ih rest _ fun q hq => h q (List.mem_cons_of_mem _ hq)

/-- Claim C5: in fail-fast mode, for every completion schedule in which the
completions `pre` succeed and then a completed branch `f` reports
`success = False`, the returned list keeps registration order and length;
every branch that had not yet completed (neither in `pre` nor `f` itself)
gets exactly the deterministic placeholder — `success = False`, output
exactly `"Cancelled due to fail-fast"`, labelled with its own agent name —
while the already-completed branches and the failing branch keep their
genuine results; hence no not-yet-completed slot ever reflects genuine
worker output. -/
theorem parallel_fail_fast_cancels_pending (names : List String)
    (res : Nat → AgentResult) (pre : List Nat) (f : Nat) (post : List Nat)
    (horder : ∀ j ∈ pre ++ f :: post, j < names.length)
    (hpre : ∀ j ∈ pre, (res j).success = true)
    (hf : (res f).success = false) :
    (ParallelAgents.executeFailFast names res (pre ++ f :: post)).length =
      names.length ∧
    (∀ i, i < names.length → i ∉ pre → i ≠ f →
      (ParallelAgents.executeFailFast names res (pre ++ f :: post))[i]? =
        (names[i]?).map cancelledResult) ∧
    (∀ i, i ∈ pre ∨ i = f →
      (ParallelAgents.executeFailFast names res (pre ++ f :: post))[i]? =
        some (res i)) := by
  have hflt : f < names.length := horder f (by simp)
  have hrun : ParallelAgents.executeFailFast names res (pre ++ f :: post) =
      fillCancelled names
        ((pre.foldl (fun s j => s.set j (some (res j)))
          (List.replicate names.length none)).set f (some (res f))) := by
    unfold ParallelAgents.executeFailFast
    rw [failFastLoop_append_successes names res pre _ _ hpre]
    show (if (res f).success then _ else _) = _
    rw [if_neg (by simp [hf])]
  have hslotlen : (pre.foldl (fun s j => s.set j (some (res j)))
      (List.replicate names.length none)).length = names.length := by
    rw [foldl_set_length, List.length_replicate]
  refine ⟨?_, ?_, ?_⟩
  · rw [hrun]
    simp [fillCancelled, List.length_zip, hslotlen]
  · intro i hi hip hif
    rw [hrun, fillCancelled_getElem?]
    have hset : ((pre.foldl (fun s j => s.set j (some (res j)))
        (List.replicate names.length none)).set f (some (res f)))[i]? = some none := by
      rw [List.getElem?_set_ne (Ne.symm hif),
        foldl_set_getElem? res pre _ i (by rw [List.length_replicate]; exact hi)]
      simp [hip, List.getElem?_replicate, hi]
    rw [hset]
    cases hn : names[i]? with
    | none => rfl
    | some nm => simp
  · intro i hcase
    rw [hrun, fillCancelled_getElem?]
    have hi : i < names.length := by
      rcases hcase with hip | hif
      · exact horder i (List.mem_append.mpr (Or.inl hip))
      · rw [hif]; exact hflt
    have hset : ((pre.foldl (fun s j => s.set j (some (res j)))
        (List.replicate names.length none)).set f (some (res f)))[i]? =
        some (some (res i)) := by
      by_cases hif : i = f
      · subst hif
        rw [List.getElem?_set_self (by rw [hslotlen]; exact hi)]
      · rcases hcase with hip | hif' 
        · rw [List.getElem?_set_ne (Ne.symm hif),
            foldl_set_getElem? res pre _ i (by rw [List.length_replicate]; exact hi)]
          simp [hip]
        · exact absurd hif' hif
    rw [hset]
    cases hn : names[i]? with
    | none =>
        have := List.getElem?_eq_none_iff.mp hn
        omega
    | some nm => simp

/-- Witness for C5 at three branches completing in the order 2, 1, 0 with
branch 1 failing: branch 0 (never completed) is cancelled, branches 2 and 1
keep their genuine results. -/
theorem parallel_fail_fast_cancels_pending_witness :
    (ParallelAgents.executeFailFast ["a", "b", "c"]
        (fun i => if i = 1 then { success := false, output := "bad" }
          else { success := true, output := "fine" }) ([2] ++ 1 :: [0])).length = 3 ∧
    (ParallelAgents.executeFailFast ["a", "b", "c"]
        (fun i => if i = 1 then { success := false, output := "bad" }
          else { success := true, output := "fine" }) ([2] ++ 1 :: [0]))[0]? =
      ((["a", "b", "c"] : List String)[0]?).map cancelledResult ∧
    (ParallelAgents.executeFailFast ["a", "b", "c"]
        (fun i => if i = 1 then { success := false, output := "bad" }
          else { success := true, output := "fine" }) ([2] ++ 1 :: [0]))[2]? =
      some ((fun i => if i = 1 then { success := false, output := "bad" }
          else ({ success := true, output := "fine" } : AgentResult)) 2) := by
  have h := parallel_fail_fast_cancels_pending ["a", "b", "c"]
    (fun i => if i = 1 then { success := false, output := "bad" }
      else { success := true, output := "fine" }) [2] 1 [0]
    (by decide) (by decide) (by decide)
  exact ⟨h.1, h.2.1 0 (by decide) (by decide) (by decide), h.2.2 2 (Or.inl (by decide))⟩


theorem SequentialAgents.trace_cons
    (transform : AgentContext → AgentResult → AgentContext)
    (nm0 : String) (b : Behavior) (rest : List (String × Behavior))
    (idx : Nat) (ctx : AgentContext) :
    SequentialAgents.trace transform ((nm0, b) :: rest) idx ctx =
      stageTag nm0 idx (b ctx) ::
        SequentialAgents.trace transform rest (idx + 1)
          (if rest.isEmpty then ctx
           else
             { transform ctx (stageTag nm0 idx (b ctx)) with
               previous_results :=
                 (transform ctx (stageTag nm0 idx (b ctx))).previous_results ++
                   [stageTag nm0 idx (b ctx)] }) := rfl

theorem SequentialAgents.loop_cons_success
    (transform : AgentContext → AgentResult → AgentContext) (total : Nat)
    (nm0 : String) (b : Behavior) (rest : List (String × Behavior))
    (idx : Nat) (ctx : AgentContext) (log : List Val) (results : List AgentResult)
    (hr0s : (stageTag nm0 idx (b ctx)).success = true) :
    SequentialAgents.loop transform true total ((nm0, b) :: rest) idx ctx log results =
      SequentialAgents.loop transform true total rest (idx + 1)
        (if rest.isEmpty then ctx
         else
           { transform ctx (stageTag nm0 idx (b ctx)) with
             previous_results :=
               (transform ctx (stageTag nm0 idx (b ctx))).previous_results ++
                 [stageTag nm0 idx (b ctx)] })
        (log ++ [seqLogEntry nm0 idx (stageTag nm0 idx (b ctx))])
        (results ++ [stageTag nm0 idx (b ctx)]) := by
  conv_lhs => unfold SequentialAgents.loop
  simp only [hr0s, Bool.not_true, Bool.false_and, Bool.false_eq_true, if_false]

theorem SequentialAgents.loop_cons_failure
    (transform : AgentContext → AgentResult → AgentContext) (total : Nat)
    (nm0 : String) (b : Behavior) (rest : List (String × Behavior))
    (idx : Nat) (ctx : AgentContext) (log : List Val) (results : List AgentResult)
    (hr0s : (stageTag nm0 idx (b ctx)).success = false) :
    SequentialAgents.loop transform true total ((nm0, b) :: rest) idx ctx log results =
      ({ success := false,
         output := "Pipeline failed at stage: " ++ nm0,
         data := [("failed_stage", Val.str nm0),
                  ("stage_results", Val.listV ((results ++ [stageTag nm0 idx (b ctx)]).map
                    AgentResult.toVal))],
         errors := (stageTag nm0 idx (b ctx)).errors ++
           [s!"Pipeline stopped at stage {idx + 1}/{total}"],
         metadata := [("execution_log",
           Val.listV (log ++ [seqLogEntry nm0 idx (stageTag nm0 idx (b ctx))]))] },
       log ++ [seqLogEntry nm0 idx (stageTag nm0 idx (b ctx))]) := by
  conv_lhs => unfold SequentialAgents.loop
  simp only [hr0s, Bool.not_false, Bool.true_and, if_true]

theorem seqLoop_first_failure
    (transform : AgentContext → AgentResult → AgentContext) (total : Nat) :
    ∀ (stages : List (String × Behavior)) (idx : Nat) (ctx : AgentContext)
      (log : List Val) (results : List AgentResult) (i : Nat) (rfail : AgentResult),
      (SequentialAgents.trace transform stages idx ctx)[i]? = some rfail →
      rfail.success = false →
      (∀ j r, j < i →
        (SequentialAgents.trace transform stages idx ctx)[j]? = some r →
        r.success = true) →
      ∃ nm, (stages.map Prod.fst)[i]? = some nm ∧
        (SequentialAgents.loop transform true total stages idx ctx log results).1.success
          = false ∧
        (SequentialAgents.loop transform true total stages idx ctx log results).1.output
          = "Pipeline failed at stage: " ++ nm ∧
        dictGet (SequentialAgents.loop transform true total stages idx ctx log
          results).1.data "failed_stage" = some (Val.str nm) ∧
        (SequentialAgents.loop transform true total stages idx ctx log results).1.errors
          = rfail.errors ++ [s!"Pipeline stopped at stage {idx + i + 1}/{total}"] ∧
        (SequentialAgents.loop transform true total stages idx ctx log results).2.length
          = log.length + (i + 1) := by
  intro stages
  induction stages with
  | nil =>
      intro idx ctx log results i rfail hfail _ _
      simp [SequentialAgents.trace] at hfail
  | cons stage rest ih =>
      intro idx ctx log results i rfail hfail hfs hpre
      obtain ⟨nm0, b⟩ := stage
      rw [SequentialAgents.trace_cons] at hfail hpre
      cases i with
      | zero =>
          have hr0 : stageTag nm0 idx (b ctx) = rfail := by simpa using hfail
          have hr0s : (stageTag nm0 idx (b ctx)).success = false := by
            rw [hr0]; exact hfs
          rw [SequentialAgents.loop_cons_failure transform total nm0 b rest idx ctx
            log results hr0s]
          refine ⟨nm0, by simp, rfl, rfl, by simp [dictGet], ?_, by simp⟩
          rw [hr0]
      | succ j =>
          have hr0s : (stageTag nm0 idx (b ctx)).success = true :=
            hpre 0 (stageTag nm0 idx (b ctx)) (Nat.succ_pos j) (by simp)
          obtain ⟨nm, hnm, h1, h2, h3, h4, h5⟩ :=
            ih (idx + 1)
              (if rest.isEmpty then ctx
               else
                 { transform ctx (stageTag nm0 idx (b ctx)) with
                   previous_results :=
                     (transform ctx (stageTag nm0 idx (b ctx))).previous_results ++
                       [stageTag nm0 idx (b ctx)] })
              (log ++ [seqLogEntry nm0 idx (stageTag nm0 idx (b ctx))])
              (results ++ [stageTag nm0 idx (b ctx)]) j rfail
              (by simpa using hfail) hfs
              (fun j' r hj' hr =>
                hpre (j' + 1) r (Nat.succ_lt_succ hj') (by simpa using hr))
          rw [SequentialAgents.loop_cons_success transform total nm0 b rest idx ctx
            log results hr0s]
          refine ⟨nm, by simpa using hnm, h1, h2, h3, ?_, ?_⟩
          · rw [h4]
            have : idx + 1 + j + 1 = idx + (j + 1) + 1 := by omega
            rw [this]
          · rw [h5]
            simp only [List.length_append, List.length_cons, List.length_nil]
            omega

/-- Claim C6: in a pipeline of `k` stages with `stop_on_failure = True`
whose first failing stage sits at 0-indexed position `i` (1-indexed
`i + 1`), `execute` returns immediately with `success = False`, output
`"Pipeline failed at stage: <name>"`, `data.failed_stage` that stage's
name, errors equal to that stage's errors followed by
`"Pipeline stopped at stage <i+1>/<k>"`, and an execution log of exactly
`i + 1` entries — the stages after the failing one are never run. -/
theorem sequential_short_circuit (stages : List (String × Behavior))
    (ctx : AgentContext) (i : Nat) (rfail : AgentResult)
    (hfail : (SequentialAgents.trace SequentialAgents.defaultTransform stages 0
      ctx)[i]? = some rfail)
    (hfs : rfail.success = false)
    (hpre : ∀ j r, j < i →
      (SequentialAgents.trace SequentialAgents.defaultTransform stages 0 ctx)[j]? =
        some r → r.success = true) :
    ∃ nm, (stages.map Prod.fst)[i]? = some nm ∧
      (SequentialAgents.execute stages true SequentialAgents.defaultTransform
        ctx).1.success = false ∧
      (SequentialAgents.execute stages true SequentialAgents.defaultTransform
        ctx).1.output = "Pipeline failed at stage: " ++ nm ∧
      dictGet (SequentialAgents.execute stages true SequentialAgents.defaultTransform
        ctx).1.data "failed_stage" = some (Val.str nm) ∧
      (SequentialAgents.execute stages true SequentialAgents.defaultTransform
        ctx).1.errors = rfail.errors ++
          [s!"Pipeline stopped at stage {i + 1}/{stages.length}"] ∧
      (SequentialAgents.execute stages true SequentialAgents.defaultTransform
        ctx).2.length = i + 1 := by
  have hne : stages ≠ [] := by
    intro h
    subst h
    simp [SequentialAgents.trace] at hfail
  have hex : SequentialAgents.execute stages true SequentialAgents.defaultTransform ctx =
      SequentialAgents.loop SequentialAgents.defaultTransform true stages.length stages
        0 ctx [] [] := by
    unfold SequentialAgents.execute
    rw [if_neg]
    simpa [List.isEmpty_iff] using hne
  obtain ⟨nm, hnm, h1, h2, h3, h4, h5⟩ :=
    seqLoop_first_failure SequentialAgents.defaultTransform stages.length stages 0 ctx
      [] [] i rfail hfail hfs hpre
  rw [Nat.zero_add] at h4
  refine ⟨nm, hnm, ?_, ?_, ?_, ?_, ?_⟩ <;> rw [hex]
  · exact h1
  · exact h2
  · exact h3
  · exact h4
  · rw [h5]
    simp

/-- Witness for C6: three stages, the second fails. -/
theorem sequential_short_circuit_witness :
    ∃ nm, (([("s1", fun _ => { success := true, output := "one" }),
            ("s2", fun _ => { success := false, output := "two", errors := ["e2"] }),
            ("s3", fun _ => { success := true, output := "three" })] :
            List (String × Behavior)).map Prod.fst)[1]? = some nm ∧
      (SequentialAgents.execute
        [("s1", fun _ => { success := true, output := "one" }),
         ("s2", fun _ => { success := false, output := "two", errors := ["e2"] }),
         ("s3", fun _ => { success := true, output := "three" })] true
        SequentialAgents.defaultTransform { task := "t" }).1.success = false ∧
      (SequentialAgents.execute
        [("s1", fun _ => { success := true, output := "one" }),
         ("s2", fun _ => { success := false, output := "two", errors := ["e2"] }),
         ("s3", fun _ => { success := true, output := "three" })] true
        SequentialAgents.defaultTransform { task := "t" }).1.output =
        "Pipeline failed at stage: " ++ nm ∧
      dictGet (SequentialAgents.execute
        [("s1", fun _ => { success := true, output := "one" }),
         ("s2", fun _ => { success := false, output := "two", errors := ["e2"] }),
         ("s3", fun _ => { success := true, output := "three" })] true
        SequentialAgents.defaultTransform { task := "t" }).1.data "failed_stage" =
        some (Val.str nm) ∧
      (SequentialAgents.execute
        [("s1", fun _ => { success := true, output := "one" }),
         ("s2", fun _ => { success := false, output := "two", errors := ["e2"] }),
         ("s3", fun _ => { success := true, output := "three" })] true
        SequentialAgents.defaultTransform { task := "t" }).1.errors =
        ({ success := false, output := "two", errors := ["e2"],
           metadata := [("stage_name", Val.str "s2"), ("stage_index", Val.natV 1)] } :
          AgentResult).errors ++ ["Pipeline stopped at stage 2/3"] ∧
      (SequentialAgents.execute
        [("s1", fun _ => { success := true, output := "one" }),
         ("s2", fun _ => { success := false, output := "two", errors := ["e2"] }),
         ("s3", fun _ => { success := true, output := "three" })] true
        SequentialAgents.defaultTransform { task := "t" }).2.length = 2 := by
  have h := sequential_short_circuit
    [("s1", fun _ => { success := true, output := "one" }),
     ("s2", fun _ => { success := false, output := "two", errors := ["e2"] }),
     ("s3", fun _ => { success := true, output := "three" })]
    { task := "t" } 1
    ({ success := false, output := "two", errors := ["e2"],
       metadata := [("stage_name", Val.str "s2"), ("stage_index", Val.natV 1)] })
    rfl rfl
    (by
      intro j r hj hr
      have hj0 : j = 0 := Nat.lt_one_iff.mp hj
      subst hj0
      have h0 : (SequentialAgents.trace SequentialAgents.defaultTransform
          [("s1", fun _ => { success := true, output := "one" }),
           ("s2", fun _ => { success := false, output := "two", errors := ["e2"] }),
           ("s3", fun _ => { success := true, output := "three" })] 0
          { task := "t" })[0]? =
          some { success := true, output := "one",
                 metadata := [("stage_name", Val.str "s1"),
                              ("stage_index", Val.natV 0)] } := rfl
      rw [h0] at hr
      injection hr with hr
      rw [← hr])
  exact h

/-- Claim C2: whenever `previous_results` is non-empty and the last result
carries no (truthy) explicit `next_agent`, the default decision returns the
first worker of the fixed order `[researcher, planner, coder, reviewer,
tester]` that is registered and not yet used (used = labelled in some
previous result's truthy `metadata["agent_name"]`), returns `None` exactly
when every registered worker of that order has been used, and on `None` the
supervisor loop terminates with the compiled aggregate result. -/
theorem supervisor_default_decision_workflow
    (workers : List (String × Behavior)) (ctx : AgentContext)
    (maxIterations fuel iteration : Nat) (log : List Val)
    (hne : ctx.previous_results ≠ [])
    (hna : truthyOptStr (ctx.previous_results.getLastD
      { success := false, output := "" }).next_agent = false) :
    (∀ w, SupervisorPattern.defaultDecision (workers.map Prod.fst)
        ctx.previous_results = some w →
      ∃ pre post, supervisorWorkflow = pre ++ w :: post ∧
        (workers.map Prod.fst).contains w = true ∧
        ((agentsUsed ctx.previous_results).any (valEqStr · w)) = false ∧
        ∀ w' ∈ pre, ¬((workers.map Prod.fst).contains w' = true ∧
          ((agentsUsed ctx.previous_results).any (valEqStr · w')) = false)) ∧
    (SupervisorPattern.defaultDecision (workers.map Prod.fst) ctx.previous_results =
        none ↔
      ∀ w ∈ supervisorWorkflow, (workers.map Prod.fst).contains w = true →
        ((agentsUsed ctx.previous_results).any (valEqStr · w)) = true) ∧
    (SupervisorPattern.defaultDecision (workers.map Prod.fst) ctx.previous_results =
        none →
      SupervisorPattern.loop (SupervisorPattern.defaultDecisionFn workers) workers
        maxIterations (fuel + 1) iteration ctx log =
        (SupervisorPattern.compileFinalResult ctx log, log)) := by
  have hdd : SupervisorPattern.defaultDecision (workers.map Prod.fst)
      ctx.previous_results =
      supervisorWorkflow.find? fun agent_name =>
        (workers.map Prod.fst).contains agent_name &&
          !((agentsUsed ctx.previous_results).any (valEqStr · agent_name)) := by
    unfold SupervisorPattern.defaultDecision
    rw [if_neg (by simp [hne]), if_neg (by simpa using hna)]
  refine ⟨?_, ?_, ?_⟩
  · intro w hw
    rw [hdd, List.find?_eq_some] at hw
    obtain ⟨hp, pre, post, hsplit, hprev⟩ := hw
    obtain ⟨hc, hnu⟩ := Bool.and_eq_true_iff.mp hp
    refine ⟨pre, post, hsplit, hc, by simpa using hnu, ?_⟩
    intro w' hw' hcontra
    have h2 := hprev w' hw'
    rw [hcontra.1, hcontra.2] at h2
    simp at h2
  · rw [hdd, List.find?_eq_none]
    constructor
    · intro h w hwmem hc
      have h2 := h w hwmem
      cases hany : (agentsUsed ctx.previous_results).any (valEqStr · w) with
      | true => rfl
      | false => exact absurd (by rw [hc, hany]; rfl) h2
    · intro h w hwmem hp
      obtain ⟨hc, hnu⟩ := Bool.and_eq_true_iff.mp hp
      have := h w hwmem hc
      simp [this] at hnu
  · intro hnone
    conv_lhs => unfold SupervisorPattern.loop
    have hfn : SupervisorPattern.defaultDecisionFn workers ctx ctx.previous_results =
        none := hnone
    simp [hfn]

/-- Witness for C2: coder and tester registered, coder already used, no
explicit handoff — the policy decides tester, the first registered unused
worker of the canonical order. -/
theorem supervisor_default_decision_workflow_witness :
    ∃ pre post, supervisorWorkflow = pre ++ "tester" :: post ∧
      (fxWorkers.map Prod.fst).contains "tester" = true ∧
      ((agentsUsed [fxUsedCoder]).any (valEqStr · "tester")) = false ∧
      ∀ w' ∈ pre, ¬((fxWorkers.map Prod.fst).contains w' = true ∧
        ((agentsUsed [fxUsedCoder]).any (valEqStr · w')) = false) :=
  (supervisor_default_decision_workflow fxWorkers
    { task := "t", previous_results := [fxUsedCoder] } 10 3 0 []
    (by simp) rfl).1 "tester" (by decide)

/-- Claim C7 counterexample: with the default policy, workers researcher
(always failing, labelling itself) and planner, the researcher fails at
iteration 0, the retry is granted — and the retry pass executes PLANNER:
the executed-agent log of the whole run is `["researcher", "planner"]` with
outcomes `[false, true]`, so a granted retry re-invokes the decision
function and here switches workers instead of continuing with the same
worker. -/
theorem supervisor_retry_switches_worker_counterexample :
    logAgents (SupervisorPattern.execute
      (SupervisorPattern.defaultDecisionFn fxRetryWorkers) fxRetryWorkers 10
      { task := "t" }).2 = ["researcher", "planner"] ∧
    logSuccesses (SupervisorPattern.execute
      (SupervisorPattern.defaultDecisionFn fxRetryWorkers) fxRetryWorkers 10
      { task := "t" }).2 = [false, true] ∧
    SupervisorPattern.shouldRetry (fxResearcherFail { task := "t" }) 0 = true := by
  refine ⟨by decide, by decide, by decide⟩

/-- Claim C7 (amended): the default retry policy grants a retry exactly
when the iteration index is 0 (`iteration < 1`) — at most one retry for the
whole run, only on the very first loop pass, never per worker; a worker
failure at any iteration ≥ 1 makes the loop return that failed result
immediately; and a granted retry continues the loop on the updated context
by re-invoking the decision function (which may choose a different
worker — see the counterexample). -/
theorem supervisor_retry_only_first_pass :
    (∀ (r : AgentResult) (i : Nat),
      SupervisorPattern.shouldRetry r i = true ↔ i = 0) ∧
    (∀ (decision : AgentContext → List AgentResult → Option String)
       (workers : List (String × Behavior)) (maxI fuel iteration : Nat)
       (ctx : AgentContext) (log : List Val) (nm : String) (b : Behavior),
      1 ≤ iteration →
      decision ctx ctx.previous_results = some nm →
      dictGet workers nm = some b →
      (b ctx).success = false →
      SupervisorPattern.loop decision workers maxI (fuel + 1) iteration ctx log =
        (b ctx, log ++ [supervisorLogEntry iteration nm (b ctx)])) ∧
    (∀ (decision : AgentContext → List AgentResult → Option String)
       (workers : List (String × Behavior)) (maxI fuel iteration : Nat)
       (ctx : AgentContext) (log : List Val) (nm : String) (b : Behavior),
      decision ctx ctx.previous_results = some nm →
      dictGet workers nm = some b →
      (b ctx).success = false →
      SupervisorPattern.shouldRetry (b ctx) iteration = true →
      SupervisorPattern.loop decision workers maxI (fuel + 1) iteration ctx log =
        SupervisorPattern.loop decision workers maxI fuel (iteration + 1)
          { ctx with previous_results := ctx.previous_results ++ [b ctx],
                     current_iteration := iteration + 1 }
          (log ++ [supervisorLogEntry iteration nm (b ctx)])) := by
  refine ⟨?_, ?_, ?_⟩
  · intro r i
    simp [SupervisorPattern.shouldRetry, Nat.lt_one_iff]
  · intro decision workers maxI fuel iteration ctx log nm b hiter hdec hw hfail
    have hretry : SupervisorPattern.shouldRetry (b ctx) iteration = false := by
      simp [SupervisorPattern.shouldRetry]
      omega
    conv_lhs => unfold SupervisorPattern.loop
    simp [hdec, hw, hfail, hretry]
  · intro decision workers maxI fuel iteration ctx log nm b hdec hw hfail hretry
    conv_lhs => unfold SupervisorPattern.loop
    simp [hdec, hw, hfail, hretry]

/-- Witness for the amended C7: the retry predicate at iteration 0; an
immediate failure return at iteration 1; and the granted retry at
iteration 0 continuing the loop on the updated context. -/
theorem supervisor_retry_only_first_pass_witness :
    (SupervisorPattern.shouldRetry (fxResearcherFail { task := "t" }) 0 = true ↔
      (0 : Nat) = 0) ∧
    SupervisorPattern.loop (fun _ _ => some "researcher") fxRetryWorkers 10 (3 + 1) 1
      { task := "t" } [] =
      (fxResearcherFail { task := "t" },
        [] ++ [supervisorLogEntry 1 "researcher" (fxResearcherFail { task := "t" })]) ∧
    SupervisorPattern.loop (fun _ _ => some "researcher") fxRetryWorkers 10 (3 + 1) 0
      { task := "t" } [] =
      SupervisorPattern.loop (fun _ _ => some "researcher") fxRetryWorkers 10 3 1
        { ({ task := "t" } : AgentContext) with
          previous_results := [] ++ [fxResearcherFail { task := "t" }],
          current_iteration := 1 }
        ([] ++ [supervisorLogEntry 0 "researcher" (fxResearcherFail { task := "t" })]) :=
  ⟨(supervisor_retry_only_first_pass.1 (fxResearcherFail { task := "t" }) 0).trans
      (by simp),
   supervisor_retry_only_first_pass.2.1 (fun _ _ => some "researcher") fxRetryWorkers
     10 3 1 { task := "t" } [] "researcher" fxResearcherFail (by decide) rfl rfl rfl,
   supervisor_retry_only_first_pass.2.2 (fun _ _ => some "researcher") fxRetryWorkers
     10 3 0 { task := "t" } [] "researcher" fxResearcherFail rfl rfl rfl rfl⟩

theorem argmaxFirst_go_spec :
    ∀ (l : List (String × ℚ)) (q : String × ℚ),
      ∃ p, l.foldl (fun acc r =>
          match acc with
          | none => some r
          | some q' => if r.2 > q'.2 then some r else some q') (some q) = some p ∧
        (p = q ∨ p ∈ l) ∧ q.2 ≤ p.2 ∧ ∀ r ∈ l, r.2 ≤ p.2 := by
  intro l
  induction l with
  | nil =>
      intro q
      exact ⟨q, rfl, Or.inl rfl, le_refl _, by simp⟩
  | cons r l ih =>
      intro q
      by_cases hgt : r.2 > q.2
      · obtain ⟨p, hfold, hmem, hle, hall⟩ := ih r
        refine ⟨p, ?_, ?_, ?_, ?_⟩
        · simpa [List.foldl_cons, hgt] using hfold
        · rcases hmem with h | h
          · exact Or.inr (h ▸ List.mem_cons_self _ _)
          · exact Or.inr (List.mem_cons_of_mem _ h)
        · exact le_of_lt (lt_of_lt_of_le hgt hle)
        · intro s hs
          rcases List.mem_cons.mp hs with h | h
          · exact h ▸ hle
          · exact hall s h
      · obtain ⟨p, hfold, hmem, hle, hall⟩ := ih q
        refine ⟨p, ?_, ?_, hle, ?_⟩
        · simpa [List.foldl_cons, hgt] using hfold
        · rcases hmem with h | h
          · exact Or.inl h
          · exact Or.inr (List.mem_cons_of_mem _ h)
        · intro s hs
          rcases List.mem_cons.mp hs with h | h
          · rw [h]
            exact le_trans (not_lt.mp hgt) hle
          · exact hall s h

theorem argmaxFirst_spec (x : String × ℚ) (l : List (String × ℚ)) :
    ∃ p, argmaxFirst (x :: l) = some p ∧ p ∈ x :: l ∧ ∀ r ∈ x :: l, r.2 ≤ p.2 := by
  obtain ⟨p, hfold, hmem, hle, hall⟩ := argmaxFirst_go_spec l x
  refine ⟨p, ?_, ?_, ?_⟩
  · simpa [argmaxFirst, List.foldl_cons] using hfold
  · rcases hmem with h | h
    · exact h ▸ List.mem_cons_self _ _
    · exact List.mem_cons_of_mem _ h
  · intro s hs
    rcases List.mem_cons.mp hs with h | h
    · exact h ▸ hle
    · exact hall s h

/-- Keyword scoring wins: a positive maximal score routes to that worker
with confidence `min(score*2, 1)`. -/
theorem route_of_argmax_pos (st : LLMRouterState) (task : String) (best : String) (bs : ℚ)
    (hmax : argmaxFirst (routerScores st task) = some (best, bs)) (hpos : 0 < bs) :
    LLMRouter.route st task = Except.ok
      ⟨best, min (bs * 2) 1, "Matched keywords for " ++ best, tierOf st best⟩ := by
  unfold LLMRouter.route
  simp only []
  rw [hmax]
  simp only [if_pos (show bs > 0 from hpos)]

/-- With no positive keyword score, a role-table hit decides the route. -/
theorem route_of_role_hit (st : LLMRouterState) (task : String)
    (hfs : ∀ p ∈ routerScores st task, p.2 ≤ 0) (d : RouteDecision)
    (hrole : LLMRouter.routeByRole st (pyLower task) = some d) :
    LLMRouter.route st task = Except.ok d := by
  unfold LLMRouter.route
  have hnone : (match argmaxFirst (routerScores st task) with
      | none => (none : Option RouteDecision)
      | some (best_agent, best_score) =>
          if best_score > 0 then
            some { agent_name := best_agent,
                   confidence := min (best_score * 2) 1,
                   reason := "Matched keywords for " ++ best_agent,
                   model_tier := tierOf st best_agent }
          else none) = none := by
    cases hl : routerScores st task with
    | nil => simp [argmaxFirst, hl]
    | cons x l =>
        obtain ⟨p, hp, hpmem, _⟩ := argmaxFirst_spec x l
        rw [hp]
        have hple : p.2 ≤ 0 := hfs p (by rw [hl]; exact hpmem)
        obtain ⟨pa, ps⟩ := p
        simp only
        rw [if_neg (by exact not_lt.mpr hple)]
  simp only []
  rw [hnone, hrole]

/-- The keyword-score stage yields nothing when every score is non-positive
(shared shape of the two fallback reductions). -/
theorem route_fromScores_none (st : LLMRouterState) (task : String)
    (hfs : ∀ p ∈ routerScores st task, p.2 ≤ 0) :
    (match argmaxFirst (routerScores st task) with
     | none => (none : Option RouteDecision)
     | some (best_agent, best_score) =>
         if best_score > 0 then
           some { agent_name := best_agent,
                  confidence := min (best_score * 2) 1,
                  reason := "Matched keywords for " ++ best_agent,
                  model_tier := tierOf st best_agent }
         else none) = none := by
  cases hl : routerScores st task with
  | nil => simp [argmaxFirst]
  | cons x l =>
      obtain ⟨p, hp, hpmem, _⟩ := argmaxFirst_spec x l
      rw [hp]
      have hple : p.2 ≤ 0 := hfs p (by rw [hl]; exact hpmem)
      obtain ⟨pa, ps⟩ := p
      simp only
      rw [if_neg (by exact not_lt.mpr hple)]

/-- With no positive keyword score and no role hit, a truthy (non-empty)
default agent is used at confidence 0.3. -/
theorem route_of_default (st : LLMRouterState) (task : String)
    (hfs : ∀ p ∈ routerScores st task, p.2 ≤ 0)
    (hrole : LLMRouter.routeByRole st (pyLower task) = none)
    (a : String) (hdef : st.default_agent = some a) (ha : a ≠ "") :
    LLMRouter.route st task = Except.ok
      ⟨a, mkRat 3 10, "Using default agent", tierOf st a⟩ := by
  unfold LLMRouter.route
  simp only []
  rw [route_fromScores_none st task hfs, hrole, hdef]
  simp only []
  rw [if_pos ha]

/-- With no positive keyword score, no role hit and a falsy default agent
(`None` or the empty string), the route raises. -/
theorem route_of_nothing (st : LLMRouterState) (task : String)
    (hfs : ∀ p ∈ routerScores st task, p.2 ≤ 0)
    (hrole : LLMRouter.routeByRole st (pyLower task) = none)
    (hdef : truthyOptStr st.default_agent = false) :
    LLMRouter.route st task = Except.error "No agent available to handle task" := by
  unfold LLMRouter.route
  simp only []
  rw [route_fromScores_none st task hfs, hrole]
  cases hd : st.default_agent with
  | none => rfl
  | some nm =>
      rw [hd] at hdef
      simp only [truthyOptStr, decide_eq_false_iff_not, not_not] at hdef
      simp only []
      rw [if_neg (by intro hne; exact hne hdef)]

/-- What a `_route_by_role` hit means: confidence 0.6, the tier of the
chosen worker, some role of the static table with a keyword occurring in
the task, and the chosen worker is the FIRST registered worker of that
role. -/
theorem routeByRole_some_spec (st : LLMRouterState) (tl : String) (d : RouteDecision)
    (h : LLMRouter.routeByRole st tl = some d) :
    d.confidence = mkRat 3 5 ∧
    d.model_tier = tierOf st d.agent_name ∧
    ∃ role kws kw pre post,
      (role, kws) ∈ roleKeywordTable ∧ kw ∈ kws ∧ pyIn kw tl = true ∧
      st.roles = pre ++ (d.agent_name, role) :: post ∧
      ∀ p ∈ pre, p.2 ≠ role := by
  unfold LLMRouter.routeByRole at h
  rw [List.findSome?_eq_some_iff] at h
  obtain ⟨t1, rk, t2, htable, hrk, _⟩ := h
  rw [List.findSome?_eq_some_iff] at hrk
  obtain ⟨k1, kw, k2, hkws, hkw, _⟩ := hrk
  by_cases hin : pyIn kw tl = true
  · rw [if_pos hin] at hkw
    rw [List.findSome?_eq_some_iff] at hkw
    obtain ⟨r1, nr, r2, hroles, hnr, hr1⟩ := hkw
    by_cases hrole : nr.2 = rk.1
    · rw [if_pos hrole] at hnr
      have hd := Option.some.inj hnr
      refine ⟨by rw [← hd], by rw [← hd], rk.1, rk.2, kw, r1, r2, ?_, ?_, hin, ?_, ?_⟩
      · rw [htable]
        simp
      · rw [hkws]
        simp
      · rw [← hd]
        simp only
        rw [hroles, ← hrole]
      · intro p hp heq
        have h2 := hr1 p hp
        rw [if_pos heq] at h2
        cases h2
    · rw [if_neg hrole] at hnr
      cases hnr
  · rw [if_neg hin] at hkw
    cases hkw

/-- Claim C9: `LLMRouter.route` without a custom router follows exactly the
fallback chain — if some registered worker has a positive normalized
keyword score, the top-scoring worker is returned at confidence
`min(score*2, 1)`; otherwise a hit of the static role→keyword table returns
the first registered worker of the matched role at confidence 0.6;
otherwise a truthy default agent is returned at confidence 0.3; and `route`
raises exactly when none of these applies because no (truthy) default agent
exists — the source guards the default with `if self.default_agent:`, so a
`None` or empty-string default falls through to the raise. -/
theorem router_fallback_chain (st : LLMRouterState) (task : String) :
    ((∃ p ∈ routerScores st task, 0 < p.2) →
      ∃ best bs, argmaxFirst (routerScores st task) = some (best, bs) ∧
        (best, bs) ∈ routerScores st task ∧ 0 < bs ∧
        (∀ p ∈ routerScores st task, p.2 ≤ bs) ∧
        LLMRouter.route st task = Except.ok
          ⟨best, min (bs * 2) 1, "Matched keywords for " ++ best, tierOf st best⟩) ∧
    ((∀ p ∈ routerScores st task, p.2 ≤ 0) →
      ∀ d, LLMRouter.routeByRole st (pyLower task) = some d →
        LLMRouter.route st task = Except.ok d ∧
        d.confidence = mkRat 3 5 ∧
        d.model_tier = tierOf st d.agent_name ∧
        ∃ role kws kw pre post,
          (role, kws) ∈ roleKeywordTable ∧ kw ∈ kws ∧
          pyIn kw (pyLower task) = true ∧
          st.roles = pre ++ (d.agent_name, role) :: post ∧
          ∀ p ∈ pre, p.2 ≠ role) ∧
    ((∀ p ∈ routerScores st task, p.2 ≤ 0) →
      LLMRouter.routeByRole st (pyLower task) = none →
      ∀ a, st.default_agent = some a → a ≠ "" →
        LLMRouter.route st task = Except.ok
          ⟨a, mkRat 3 10, "Using default agent", tierOf st a⟩) ∧
    ((∃ e, LLMRouter.route st task = Except.error e) ↔
      ((∀ p ∈ routerScores st task, p.2 ≤ 0) ∧
        LLMRouter.routeByRole st (pyLower task) = none ∧
        truthyOptStr st.default_agent = false)) := by
  have part1 : (∃ p ∈ routerScores st task, 0 < p.2) →
      ∃ best bs, argmaxFirst (routerScores st task) = some (best, bs) ∧
        (best, bs) ∈ routerScores st task ∧ 0 < bs ∧
        (∀ p ∈ routerScores st task, p.2 ≤ bs) ∧
        LLMRouter.route st task = Except.ok
          ⟨best, min (bs * 2) 1, "Matched keywords for " ++ best, tierOf st best⟩ := by
    intro ⟨p, hpmem, hppos⟩
    have hnel : routerScores st task ≠ [] := by
      intro h
      rw [h] at hpmem
      cases hpmem
    obtain ⟨x, l, hl⟩ := List.exists_cons_of_ne_nil hnel
    obtain ⟨q, hq, hqmem, hqmax⟩ := argmaxFirst_spec x l
    rw [← hl] at hq hqmem hqmax
    have hqpos : 0 < q.2 := lt_of_lt_of_le hppos (hqmax p hpmem)
    obtain ⟨best, bs⟩ := q
    exact ⟨best, bs, hq, hqmem, hqpos, hqmax,
      route_of_argmax_pos st task best bs hq hqpos⟩
  have part2 : (∀ p ∈ routerScores st task, p.2 ≤ 0) →
      ∀ d, LLMRouter.routeByRole st (pyLower task) = some d →
        LLMRouter.route st task = Except.ok d ∧
        d.confidence = mkRat 3 5 ∧
        d.model_tier = tierOf st d.agent_name ∧
        ∃ role kws kw pre post,
          (role, kws) ∈ roleKeywordTable ∧ kw ∈ kws ∧
          pyIn kw (pyLower task) = true ∧
          st.roles = pre ++ (d.agent_name, role) :: post ∧
          ∀ p ∈ pre, p.2 ≠ role := by
    intro hfs d hrole
    obtain ⟨h1, h2, h3⟩ := routeByRole_some_spec st (pyLower task) d hrole
    exact ⟨route_of_role_hit st task hfs d hrole, h1, h2, h3⟩
  refine ⟨part1, part2,
    fun hfs hrole a hdef ha => route_of_default st task hfs hrole a hdef ha, ?_⟩
  constructor
  · intro ⟨e, herr⟩
    have hfs : ∀ p ∈ routerScores st task, p.2 ≤ 0 := by
      by_contra hcon
      push_neg at hcon
      obtain ⟨p, hpmem, hppos⟩ := hcon
      obtain ⟨best, bs, _, _, _, _, hok⟩ := part1 ⟨p, hpmem, hppos⟩
      rw [hok] at herr
      cases herr
    have hro : LLMRouter.routeByRole st (pyLower task) = none := by
      cases hro : LLMRouter.routeByRole st (pyLower task) with
      | none => rfl
      | some d =>
          obtain ⟨hok, -⟩ := part2 hfs d hro
          rw [hok] at herr
          cases herr
    refine ⟨hfs, hro, ?_⟩
    cases hdef : st.default_agent with
    | none => rfl
    | some a =>
        by_cases ha : a = ""
        · simp [truthyOptStr, ha]
        · have hok := route_of_default st task hfs hro a hdef ha
          rw [hok] at herr
          cases herr
  · intro ⟨hfs, hrole, hdef⟩
    exact ⟨"No agent available to handle task", route_of_nothing st task hfs hrole hdef⟩

/-- The concrete router of the specification example: researcher, coder and
reviewer registered with keywords find / implement / review. -/
def fxRouter : LLMRouterState :=
  { default_agent := some "researcher",
    keywords := [("researcher", ["find"]), ("coder", ["implement"]),
                 ("reviewer", ["review"])],
    roles := [("researcher", AgentRole.researcher), ("coder", AgentRole.coder),
              ("reviewer", AgentRole.reviewer)],
    tiers := [("researcher", "standard"), ("coder", "standard"),
              ("reviewer", "standard")] }

/-- Witness for C9: the keyword case on the task of the specification
example — "please implement the login flow" routes to the top-scoring
coder. -/
theorem router_fallback_chain_witness :
    ∃ best bs,
      argmaxFirst (routerScores fxRouter "please implement the login flow") =
        some (best, bs) ∧
      (best, bs) ∈ routerScores fxRouter "please implement the login flow" ∧
      0 < bs ∧
      (∀ p ∈ routerScores fxRouter "please implement the login flow", p.2 ≤ bs) ∧
      LLMRouter.route fxRouter "please implement the login flow" = Except.ok
        ⟨best, min (bs * 2) 1, "Matched keywords for " ++ best, tierOf fxRouter best⟩ :=
  (router_fallback_chain fxRouter "please implement the login flow").1
    ⟨("coder", mkRat 1 1), by decide, by decide⟩
